import Mathlib

/-!
Verification of the GeoJSON ↔ CSV bulk-editor core (`src/app.py`).

The development shallowly embeds the four transformation functions of the
repository — `geojson_to_dataframe`, `dataframe_to_geojson`,
`combine_geojson_files`, `clean_dataframe`/`join_attributes` — together with
the JSON (de)serialisation they rely on (`json.dumps` / `json.loads` with
CPython's default options), and proves or refutes the specified properties.

JSON values are modelled by the mutual inductive `Value`/`VList`/`FList`
(arrays and objects carry their own list types so that all functions are
structurally recursive and kernel-evaluable).  Pandas `DataFrame`s are
modelled by `Table`: an ordered column list plus rows of (column, cell)
pairs; a missing cell is `Value.null` (the embedding of `NaN`/`None`).
Floating point numbers are outside the embedding (no claim mentions them).
-/

mutual

inductive Value where
  | null : Value
  | bool (b : Bool) : Value
  | int (n : Int) : Value
  | str (s : String) : Value
  | arr (elems : VList) : Value
  | obj (fields : FList) : Value
deriving DecidableEq

inductive VList where
  | nil : VList
  | cons (hd : Value) (tl : VList) : VList
deriving DecidableEq

inductive FList where
  | nil : FList
  | cons (key : String) (val : Value) (tl : FList) : FList
deriving DecidableEq

end

/-- Keys of a JSON object, in order. -/
def FList.keys : FList → List String
  | .nil => []
  | .cons k _ tl => k :: tl.keys

/-- Does the object have the given key? -/
def FList.hasKey (fs : FList) (k : String) : Bool :=
  match fs with
  | .nil => false
  | .cons k1 _ tl => k1 = k || tl.hasKey k

/-- Python dict assignment `d[k] = v`: update in place if the key exists,
else append at the end. -/
def FList.insertKV (fs : FList) (k : String) (v : Value) : FList :=
  match fs with
  | .nil => .cons k v .nil
  | .cons k1 v1 tl => if k1 = k then .cons k1 v tl else .cons k1 v1 (tl.insertKV k v)

def FList.append : FList → FList → FList
  | .nil, gs => gs
  | .cons k v tl, gs => .cons k v (tl.append gs)

/-- Building a Python dict from a pair list (as `json.loads` does for a
parsed JSON object): left fold of dict assignment. -/
def FList.fromPairsAux (acc : FList) : FList → FList
  | .nil => acc
  | .cons k v tl => FList.fromPairsAux (acc.insertKV k v) tl

def FList.fromPairs (fs : FList) : FList :=
  FList.fromPairsAux .nil fs

mutual

/-- Well-formed JSON data: every object has pairwise distinct keys.
Data obtained from `json.loads` always satisfies this. -/
def Value.wf : Value → Bool
  | .null => true
  | .bool _ => true
  | .int _ => true
  | .str _ => true
  | .arr xs => xs.wfItems
  | .obj fs => (fs.keys.Nodup : Bool) && fs.wfFields

def VList.wfItems : VList → Bool
  | .nil => true
  | .cons v tl => v.wf && tl.wfItems

def FList.wfFields : FList → Bool
  | .nil => true
  | .cons _ v tl => v.wf && tl.wfFields

end

/-- Python truthiness of a JSON value (`if geom`, `if original_id`, …). -/
def Value.truthy : Value → Bool
  | .null => false
  | .bool b => b
  | .int n => n != 0
  | .str s => s != ""
  | .arr xs => xs != .nil
  | .obj fs => fs != .nil

/-- Decimal digits of a natural number, most significant first; the first
argument is recursion fuel (any fuel `≥ n` gives the digits of `n`). -/
def natToDecAux : Nat → Nat → List Char
  | 0, _ => []
  | f+1, n =>
    if n < 10 then [Char.ofNat (48 + n)]
    else natToDecAux f (n / 10) ++ [Char.ofNat (48 + n % 10)]

/-- Decimal representation of a natural number (Python `str(n)` for `n ≥ 0`). -/
def natToDec (n : Nat) : String := ⟨natToDecAux (n + 1) n⟩

/-- Python `str` of an integer. -/
def intToDec (n : Int) : String :=
  if n < 0 then "-" ++ natToDec n.natAbs else natToDec n.toNat

/-- Characters Python `str.strip()` removes (ASCII whitespace; the exotic
Unicode whitespace Python also strips is outside the embedding). -/
def pySpace (c : Char) : Bool :=
  c = ' ' || c = '\t' || c = '\n' || c = '\r' || c = '\x0b' || c = '\x0c'

/-- Python `s.strip()`. -/
def pyStrip (s : String) : String :=
  ⟨((s.data.dropWhile pySpace).reverse.dropWhile pySpace).reverse⟩

/-- Join strings with a separator (used by the Python `str`/`repr` model). -/
def joinSep (sep : String) : List String → String
  | [] => ""
  | [x] => x
  | x :: xs => x ++ sep ++ joinSep sep xs

/-- A single-quote character, for Python `repr` of strings. -/
def sglq : String := String.singleton (Char.ofNat 39)

mutual

/-- Python `repr` of a JSON value (strings get single quotes).  The escaping
`repr` performs inside strings is not modelled; no claim depends on it. -/
def pyRepr : Value → String
  | .null => "None"
  | .bool true => "True"
  | .bool false => "False"
  | .int n => intToDec n
  | .str s => sglq ++ s ++ sglq
  | .arr xs => "[" ++ joinSep ", " (pyReprItems xs) ++ "]"
  | .obj fs => "\x7b" ++ joinSep ", " (pyReprFields fs) ++ "\x7d"

def pyReprItems : VList → List String
  | .nil => []
  | .cons v tl => pyRepr v :: pyReprItems tl

def pyReprFields : FList → List String
  | .nil => []
  | .cons k v tl => (sglq ++ k ++ sglq ++ ": " ++ pyRepr v) :: pyReprFields tl

end

/-- Python `str` of a JSON value (`str(x)` = `repr(x)` except on strings). -/
def pyStr : Value → String
  | .str s => s
  | v => pyRepr v

/-! ## `json.dumps` (CPython defaults: `ensure_ascii=True`,
separators `", "` and `": "`) -/

/-- Lower-case hex digit. -/
def hexDig (n : Nat) : Char :=
  if n < 10 then Char.ofNat (48 + n) else Char.ofNat (87 + n)

/-- Four-digit hex representation, as in a `\uXXXX` escape. -/
def hex4 (n : Nat) : List Char :=
  [hexDig (n / 4096 % 16), hexDig (n / 256 % 16), hexDig (n / 16 % 16), hexDig (n % 16)]

/-- How `json.dumps` renders one character of a string with
`ensure_ascii=True`: printable ASCII is kept, `"` and `\` and control
characters get short escapes, everything else becomes `\uXXXX`
(a surrogate pair for astral characters). -/
def escChar (c : Char) : List Char :=
  if c = '"' then ['\\', '"']
  else if c = '\\' then ['\\', '\\']
  else if c = '\n' then ['\\', 'n']
  else if c = '\t' then ['\\', 't']
  else if c = '\r' then ['\\', 'r']
  else if c = '\x08' then ['\\', 'b']
  else if c = '\x0c' then ['\\', 'f']
  else if 0x20 ≤ c.toNat ∧ c.toNat ≤ 0x7e then [c]
  else if c.toNat < 0x10000 then '\\' :: 'u' :: hex4 c.toNat
  else
    '\\' :: 'u' :: hex4 (0xd800 + (c.toNat - 0x10000) / 1024) ++
      ('\\' :: 'u' :: hex4 (0xdc00 + (c.toNat - 0x10000) % 1024))

/-- `json.dumps` of a string, including the surrounding quotes. -/
def dumpsStr (s : String) : String :=
  "\"" ++ ⟨s.data.flatMap escChar⟩ ++ "\""

mutual

/-- `json.dumps(v)` with CPython's default options. -/
def dumps : Value → String
  | .null => "null"
  | .bool true => "true"
  | .bool false => "false"
  | .int n => intToDec n
  | .str s => dumpsStr s
  | .arr xs => "[" ++ dumpsItems xs ++ "]"
  | .obj fs => "\x7b" ++ dumpsFields fs ++ "\x7d"

def dumpsItems : VList → String
  | .nil => ""
  | .cons v .nil => dumps v
  | .cons v tl => dumps v ++ ", " ++ dumpsItems tl

def dumpsFields : FList → String
  | .nil => ""
  | .cons k v .nil => dumpsStr k ++ ": " ++ dumps v
  | .cons k v tl => dumpsStr k ++ ": " ++ dumps v ++ ", " ++ dumpsFields tl

end

/-! ## `json.loads` -/

/-- JSON whitespace. -/
def jsonWs (c : Char) : Bool :=
  c = ' ' || c = '\t' || c = '\n' || c = '\r'

def skipWs (cs : List Char) : List Char := cs.dropWhile jsonWs

/-- Value of a hex digit. -/
def fromHexDig (c : Char) : Option Nat :=
  if 48 ≤ c.toNat ∧ c.toNat ≤ 57 then some (c.toNat - 48)
  else if 97 ≤ c.toNat ∧ c.toNat ≤ 102 then some (c.toNat - 87)
  else if 65 ≤ c.toNat ∧ c.toNat ≤ 70 then some (c.toNat - 55)
  else none

def hex4Val (a b c d : Char) : Option Nat :=
  match fromHexDig a, fromHexDig b, fromHexDig c, fromHexDig d with
  | some x, some y, some z, some w => some (x * 4096 + y * 256 + z * 16 + w)
  | _, _, _, _ => none

/-- Shorthand escapes accepted inside a JSON string literal. -/
def shorthandEsc (e : Char) : Option Char :=
  if e = '"' then some '"'
  else if e = '\\' then some '\\'
  else if e = '/' then some '/'
  else if e = 'b' then some '\x08'
  else if e = 'f' then some '\x0c'
  else if e = 'n' then some '\n'
  else if e = 'r' then some '\r'
  else if e = 't' then some '\t'
  else none

/-- Decode the tail of a low-surrogate escape that must follow a high
surrogate `\uXXXX` escape with value `h`. -/
def parseLowSurr (h : Nat) (cs : List Char) : Option (Char × List Char) :=
  match cs with
  | b1 :: b2 :: e1 :: f1 :: g1 :: h1 :: rest =>
    if b1 = '\\' ∧ b2 = 'u' then
      match hex4Val e1 f1 g1 h1 with
      | none => none
      | some l =>
        if 0xdc00 ≤ l ∧ l < 0xe000 then
          some (Char.ofNat (0x10000 + (h - 0xd800) * 1024 + (l - 0xdc00)), rest)
        else none
    else none
  | _ => none

/-- Decode a `\uXXXX` escape (the input starts right after `\u`),
combining surrogate pairs; lone surrogates are rejected (Lean `Char`
cannot hold them; no claim needs them). -/
def parseUEsc (cs : List Char) : Option (Char × List Char) :=
  match cs with
  | a :: b :: c :: d :: rest =>
    match hex4Val a b c d with
    | none => none
    | some h =>
      if h < 0xd800 ∨ 0xe000 ≤ h then some (Char.ofNat h, rest)
      else if h < 0xdc00 then parseLowSurr h rest
      else none
  | _ => none

/-- Prepend a decoded character to a string-parse result. -/
def consFst (c : Char) : Option (List Char × List Char) → Option (List Char × List Char)
  | some (cs, r) => some (c :: cs, r)
  | none => none

/-- Body of a JSON string literal, after the opening quote; returns the
decoded characters and the input after the closing quote.  Fuel-indexed
(any fuel exceeding the input length suffices). -/
def parseStrBody : Nat → List Char → Option (List Char × List Char)
  | 0, _ => none
  | _+1, [] => none
  | f+1, c :: rest =>
    if c = '"' then some ([], rest)
    else if c = '\\' then
      match rest with
      | [] => none
      | e :: rest2 =>
        if e = 'u' then
          match parseUEsc rest2 with
          | some (ch, rest3) => consFst ch (parseStrBody f rest3)
          | none => none
        else
          match shorthandEsc e with
          | some c1 => consFst c1 (parseStrBody f rest2)
          | none => none
    else if 0x20 ≤ c.toNat then consFst c (parseStrBody f rest)
    else none

/-- Numeric value of a digit character. -/
def digVal (c : Char) : Nat := c.toNat - 48

def decVal (ds : List Char) : Nat := ds.foldl (fun a c => 10 * a + digVal c) 0

/-- Parse a run of decimal digits (at least one). -/
def parseDigits (cs : List Char) : Option (Nat × List Char) :=
  let ds := cs.takeWhile Char.isDigit
  let r := cs.dropWhile Char.isDigit
  if ds.isEmpty then none else some (decVal ds, r)

/-- Wrap a parsed string body as a value. -/
def strRes : Option (List Char × List Char) → Option (Value × List Char)
  | some (chars, r) => some (.str ⟨chars⟩, r)
  | none => none

/-- Wrap a parsed digit run as an integer value (negated or not). -/
def intRes (neg : Bool) : Option (Nat × List Char) → Option (Value × List Char)
  | some (n, r) => some (.int (if neg then -(n : Int) else (n : Int)), r)
  | none => none

def arrRes : Option (VList × List Char) → Option (Value × List Char)
  | some (vs, r) => some (.arr vs, r)
  | none => none

/-- Wrap parsed object members as a value, folding the raw pair list into a
dict exactly as `json.loads` does (later duplicate keys win). -/
def objRes : Option (FList × List Char) → Option (Value × List Char)
  | some (fs, r) => some (.obj fs.fromPairs, r)
  | none => none

def consItem (v : Value) : Option (VList × List Char) → Option (VList × List Char)
  | some (tl, r) => some (.cons v tl, r)
  | none => none

def consField (k : String) (v : Value) :
    Option (FList × List Char) → Option (FList × List Char)
  | some (tl, r) => some (.cons k v tl, r)
  | none => none

mutual

/-- Recursive-descent JSON value parser (integers only among numbers; JSON
floats are outside the embedding).  Structurally recursive on fuel so that
the kernel can evaluate it; `weightV` bounds the fuel a value needs. -/
def parseV : Nat → List Char → Option (Value × List Char)
  | 0, _ => none
  | f+1, cs =>
    if cs.take 4 = "null".data then some (.null, cs.drop 4)
    else if cs.take 4 = "true".data then some (.bool true, cs.drop 4)
    else if cs.take 5 = "false".data then some (.bool false, cs.drop 5)
    else
      match cs with
      | [] => none
      | c :: r =>
        if c = '"' then strRes (parseStrBody (r.length + 1) r)
        else if c = '-' then intRes true (parseDigits r)
        else if c = '[' then
          (if (skipWs r).head? = some ']' then some (.arr .nil, (skipWs r).tail)
           else arrRes (parseItems f (skipWs r)))
        else if c = '\x7b' then
          (if (skipWs r).head? = some '\x7d' then some (.obj .nil, (skipWs r).tail)
           else objRes (parseFields f (skipWs r)))
        else if c.isDigit then intRes false (parseDigits cs)
        else none

/-- One-or-more array elements followed by `]`. -/
def parseItems : Nat → List Char → Option (VList × List Char)
  | 0, _ => none
  | f+1, cs =>
    match parseV f cs with
    | none => none
    | some (v, r) =>
      if (skipWs r).head? = some ']' then some (.cons v .nil, (skipWs r).tail)
      else if (skipWs r).head? = some ',' then
        consItem v (parseItems f (skipWs (skipWs r).tail))
      else none

/-- One-or-more object members followed by the closing brace; returns the
raw pair list in source order (`objRes` folds it into a dict). -/
def parseFields : Nat → List Char → Option (FList × List Char)
  | 0, _ => none
  | f+1, cs =>
    if cs.head? = some '"' then
      match parseStrBody (cs.tail.length + 1) cs.tail with
      | none => none
      | some (kcs, r2) =>
        if (skipWs r2).head? = some ':' then
          match parseV f (skipWs (skipWs r2).tail) with
          | none => none
          | some (v, r4) =>
            if (skipWs r4).head? = some '\x7d' then
              some (.cons ⟨kcs⟩ v .nil, (skipWs r4).tail)
            else if (skipWs r4).head? = some ',' then
              consField ⟨kcs⟩ v (parseFields f (skipWs (skipWs r4).tail))
            else none
        else none
    else none

end

/-- `json.loads`: parse with whitespace allowed around the document; the
whole input must be consumed. -/
def loads (s : String) : Option Value :=
  match parseV (s.length + 1) (skipWs s.data) with
  | some (v, rest) => if skipWs rest = [] then some v else none
  | none => none


/-! ## Data model of the app: features, documents, tables -/

/-- A parsed GeoJSON feature.  `id = none` models an absent `"id"` key
(`feat.get("id", default)` then returns the default); an explicit JSON
`null` id is `some Value.null`.  An absent or null `"geometry"` is
`Value.null` (both are falsy, which is all the code tests). -/
structure Feature where
  id : Option Value
  geometry : Value
  properties : List (String × Value)
deriving DecidableEq

/-- A parsed GeoJSON document: the `"type"` marker (`none` when the key is
absent) and the `"features"` list. -/
structure GeoDoc where
  ty : Option String
  features : List Feature
deriving DecidableEq

/-- A pandas `DataFrame`: ordered column labels, and rows as ordered
(label, cell) pairs.  A `NaN`/`None` cell is `Value.null`. -/
structure Table where
  cols : List String
  rows : List (List (String × Value))
deriving DecidableEq

/-- Cell of a row under a column label (`row[col]` / `row.get(col, dflt)`). -/
def rowCell (r : List (String × Value)) (c : String) (dflt : Value) : Value :=
  match r.lookup c with
  | some v => v
  | none => dflt

/-- Python dict assignment on a row dict: overwrite in place, else append. -/
def dictInsert (r : List (String × Value)) (k : String) (v : Value) :
    List (String × Value) :=
  match r with
  | [] => [(k, v)]
  | (k1, v1) :: tl =>
    if k1 = k then (k1, v) :: tl else (k1, v1) :: dictInsert tl k v

/-! ## `geojson_to_dataframe` (src/app.py lines 64-89) -/

/-- The row dict built for feature `i`:
`row = {"_feature_id": fid, "geometry_json": ...}` followed by
`row[k] = v` for each property (NO disambiguation of colliding keys). -/
def featureRow (i : Nat) (f : Feature) : List (String × Value) :=
  let fid : Value :=
    match f.id with
    | some v => v
    | none => .str ("feature_" ++ natToDec i)
  let gj : Value := if f.geometry.truthy then .str (dumps f.geometry) else .str ""
  f.properties.foldl (fun row kv => dictInsert row kv.1 kv.2)
    [("_feature_id", fid), ("geometry_json", gj)]

/-- Columns of `pd.DataFrame(rows)`: union of row-dict keys in first-seen
order. -/
def collectCols (rows : List (List (String × Value))) : List String :=
  rows.foldl (fun acc r => acc ++ ((r.map Prod.fst).filter (fun c => !acc.contains c))) []

/-- `pd.DataFrame(rows)`: align every row dict to the common column list,
filling missing cells with `NaN`. -/
def buildTable (rowDicts : List (List (String × Value))) : Table :=
  let cols := collectCols rowDicts
  ⟨cols, rowDicts.map (fun r => cols.map (fun c => (c, rowCell r c .null)))⟩

/-- `df[cols]`: select/reorder columns. -/
def selectCols (t : Table) (cs : List String) : Table :=
  ⟨cs, t.rows.map (fun r => cs.map (fun c => (c, rowCell r c .null)))⟩

/-- `geojson_to_dataframe` (src/app.py lines 64-89). -/
def geojson_to_dataframe (g : GeoDoc) : Table :=
  let rowDicts := g.features.enum.map (fun p => featureRow p.1 p.2)
  if rowDicts.isEmpty then ⟨[], []⟩
  else
    let df := buildTable rowDicts
    selectCols df
      (["_feature_id", "geometry_json"] ++
        df.cols.filter (fun c => c ≠ "_feature_id" ∧ c ≠ "geometry_json"))

/-! ## `dataframe_to_geojson` (src/app.py lines 91-116) -/

/-- The geometry reconstructed from a row's `geometry_json` cell.  Matches
`json.loads(geom_json) if pd.notna(geom_json) and geom_json and
geom_json.strip() else None` under a bare `except` that turns every failure
(bad JSON, or `.strip()` on a non-string) into `None`. -/
def decodeGeom (cell : Value) : Value :=
  match cell with
  | .str s =>
    if pyStrip s ≠ "" then
      match loads s with
      | some v => v
      | none => .null
    else .null
  | _ => .null

/-- One output feature of `dataframe_to_geojson`: id from `_feature_id`
(a present dict key, possibly `None`), geometry as above, and one property
per non-reserved column whose cell is neither `NaN` nor the empty string. -/
def decodeFeature (cols : List String) (r : List (String × Value)) : Feature :=
  { id := some (rowCell r "_feature_id" .null)
    geometry := decodeGeom (rowCell r "geometry_json" (.str ""))
    properties := cols.filterMap (fun c =>
      if c = "geometry_json" ∨ c = "_feature_id" then none
      else
        let v := rowCell r c .null
        if v ≠ .null ∧ v ≠ .str "" then some (c, v) else none) }

/-- `dataframe_to_geojson` (src/app.py lines 91-116).  Total: a missing
`geometry_json` column is silently treated as blank by `row.get`. -/
def dataframe_to_geojson (t : Table) : GeoDoc :=
  ⟨some "FeatureCollection", t.rows.map (decodeFeature t.cols)⟩

/-! ## `combine_geojson_files` (src/app.py lines 118-135) -/

/-- Candidate renamed id `f"{original_id}_{counter}"`. -/
def candId (base : String) (k : Nat) : String := base ++ "_" ++ natToDec k

/-- The `while new_id in feature_ids` loop: smallest counter `≥ k` whose
candidate is unseen.  Structural fuel; `seen.length + 1` always suffices. -/
def freshIdAux (base : String) (seen : List Value) : Nat → Nat → String
  | 0, k => candId base k
  | f+1, k =>
    if Value.str (candId base k) ∈ seen then freshIdAux base seen f (k + 1)
    else candId base k

/-- The renamed id generated for a duplicate: suffix `_1`, `_2`, … with the
smallest counter avoiding a further collision. -/
def freshId (base : String) (seen : List Value) : String :=
  freshIdAux base seen (seen.length + 1) 1

/-- One step of the combine loop: possibly rename the feature's id, then
record it in the seen set if truthy. -/
def combineStepF (st : List Value × List Feature) (f : Feature) :
    List Value × List Feature :=
  let seen := st.1
  let collides : Bool := match f.id with
    | some v => v.truthy && seen.contains v
    | none => false
  let f1 : Feature :=
    if collides then
      { f with id := some (.str (freshId (pyStr (f.id.getD .null)) seen)) }
    else f
  let truthyId1 := match f1.id with
    | some v => v.truthy
    | none => false
  let seen1 := if truthyId1 then seen ++ [f1.id.getD .null] else seen
  (seen1, st.2 ++ [f1])

/-- `combine_geojson_files` (src/app.py lines 118-135). -/
def combine_geojson_files (docs : List GeoDoc) : GeoDoc :=
  ⟨some "FeatureCollection",
    ((docs.flatMap GeoDoc.features).foldl combineStepF ([], [])).2⟩

/-- The Step 0 module-level combine block (src/app.py lines 201-218):
documents failing the `FeatureCollection` marker check set `valid_files =
False`; the combine only runs if ALL documents passed and at least one
FeatureCollection was collected. -/
def combineStep0 (docs : List GeoDoc) : Option GeoDoc :=
  let objs := docs.filter (fun d => d.ty = some "FeatureCollection")
  let valid := docs.all (fun d => d.ty = some "FeatureCollection")
  if valid ∧ ¬objs.isEmpty then some (combine_geojson_files objs) else none

/-! ## `clean_dataframe` (src/app.py lines 137-150) -/

/-- The sentinel strings `df.replace(['', 'NaN', 'NaT', 'None', 'nan',
'N/A'], None)` blanks out. -/
def sentinels : List Value :=
  [.str "", .str "NaN", .str "NaT", .str "None", .str "nan", .str "N/A"]

/-- `df.replace([...], None)` on every cell. -/
def df_replace (t : Table) : Table :=
  ⟨t.cols, t.rows.map (List.map (fun p => if p.2 ∈ sentinels then (p.1, Value.null) else p))⟩

/-- `df.fillna('')` on every cell. -/
def df_fillna (t : Table) : Table :=
  ⟨t.cols, t.rows.map (List.map (fun p => if p.2 = Value.null then (p.1, Value.str "") else p))⟩

/-- `df[col].astype(str)` on every column. -/
def df_astype_str (t : Table) : Table :=
  ⟨t.cols, t.rows.map (List.map (fun p => (p.1, Value.str (pyStr p.2))))⟩

/-- `clean_dataframe` (src/app.py lines 137-150). -/
def clean_dataframe (t : Table) : Table :=
  df_astype_str (df_fillna (df_replace t))

/-! ## `join_attributes` (src/app.py lines 152-189) -/

/-- `df[key] = df[key].astype(str).str.strip()`. -/
def setKeyNorm (t : Table) (key : String) : Table :=
  ⟨t.cols, t.rows.map (List.map (fun p =>
    if p.1 = key then (p.1, Value.str (pyStrip (pyStr p.2))) else p))⟩

/-- `pd.merge(main, add, on=key, how="left", suffixes=('', '_add'))`:
every `main` row, in order, paired with each matching `addition` row (in
order); an unmatched `main` row gets one output row with `NaN` in the
addition-sourced cells.  Addition columns named like a `main` column
(other than the key) are suffixed `_add`. -/
def mergeRename (mcols : List String) (c : String) : String :=
  if mcols.contains c then c ++ "_add" else c

def leftMerge (m a : Table) (key : String) : Table :=
  let addCols := a.cols.erase key
  let renamedAddCols := addCols.map (mergeRename m.cols)
  let renRow : List (String × Value) → List (String × Value) := fun r =>
    (r.filter (fun p => p.1 ≠ key)).map (fun p => (mergeRename m.cols p.1, p.2))
  ⟨m.cols ++ renamedAddCols,
    m.rows.flatMap (fun r =>
      let ms := a.rows.filter (fun s => rowCell s key .null = rowCell r key .null)
      if ms.isEmpty then [r ++ renamedAddCols.map (fun c => (c, Value.null))]
      else ms.map (fun s => r ++ renRow s))⟩

/-- Drop every column with the given label. -/
def dropColumn (t : Table) (c : String) : Table :=
  ⟨t.cols.filter (fun c1 => c1 ≠ c), t.rows.map (fun r => r.filter (fun p => p.1 ≠ c))⟩

/-- Does the label end in `_add` (Python `col.endswith('_add')`)? -/
def endsAdd (s : String) : Bool := "_add".data.isSuffixOf s.data

/-- Python `col[:-4]`. -/
def dropLast4 (s : String) : String := ⟨s.data.take (s.data.length - 4)⟩

/-- The de-duplication loop after the merge: for each column of the merged
frame (the loop iterates over the snapshot taken at loop entry), drop it if
it ends in `_add` and the un-suffixed name is still a column. -/
def dropAddPass : List String → Table → Table
  | [], t => t
  | c :: cs, t =>
    if endsAdd c ∧ t.cols.contains (dropLast4 c) then dropAddPass cs (dropColumn t c)
    else dropAddPass cs t

/-- `join_attributes` (src/app.py lines 152-189).  `none` models the
`return None` error paths (missing input or missing key column). -/
def join_attributes (main add : Option Table) (key : String) : Option Table :=
  match main, add with
  | some m, some a =>
    let m1 := clean_dataframe m
    let a1 := clean_dataframe a
    if key ∈ m1.cols then
      if key ∈ a1.cols then
        let m2 := setKeyNorm m1 key
        let a2 := setKeyNorm a1 key
        let joined := leftMerge m2 a2 key
        some (dropAddPass joined.cols joined)
      else none
    else none
  | _, _ => none
/-! ## Lemmas: row dicts -/

theorem lookup_cons_self (k : String) (v : Value) (tl : List (String × Value)) :
    ((k, v) :: tl).lookup k = some v := by
  simp [List.lookup]

theorem lookup_cons_ne (k k1 : String) (v : Value) (tl : List (String × Value))
    (h : k1 ≠ k) : ((k, v) :: tl).lookup k1 = tl.lookup k1 := by
  simp [List.lookup, beq_eq_false_iff_ne.mpr h]

theorem lookup_dictInsert_self (r : List (String × Value)) (k : String) (v : Value) :
    (dictInsert r k v).lookup k = some v := by
  induction r with
  | nil => simp [dictInsert, List.lookup]
  | cons p tl ih =>
    obtain ⟨k1, v1⟩ := p
    by_cases h : k1 = k
    · subst h; simp [dictInsert, List.lookup]
    · rw [dictInsert, if_neg h, lookup_cons_ne _ _ _ _ (Ne.symm h)]
      exact ih

theorem lookup_dictInsert_ne (r : List (String × Value)) (k k1 : String) (v : Value)
    (h : k1 ≠ k) : (dictInsert r k v).lookup k1 = r.lookup k1 := by
  induction r with
  | nil => simp [dictInsert, List.lookup, beq_eq_false_iff_ne.mpr h]
  | cons p tl ih =>
    obtain ⟨k2, v2⟩ := p
    by_cases h2 : k2 = k
    · subst h2
      rw [dictInsert, if_pos rfl, lookup_cons_ne _ _ _ _ h, lookup_cons_ne _ _ _ _ h]
    · rw [dictInsert, if_neg h2]
      by_cases h3 : k1 = k2
      · subst h3
        rw [lookup_cons_self, lookup_cons_self]
      · rw [lookup_cons_ne _ _ _ _ h3, lookup_cons_ne _ _ _ _ h3]
        exact ih

theorem lookup_foldl_dictInsert_of_not_mem (props : List (String × Value))
    (base : List (String × Value)) (k : String)
    (h : k ∉ props.map Prod.fst) :
    (props.foldl (fun r kv => dictInsert r kv.1 kv.2) base).lookup k = base.lookup k := by
  induction props generalizing base with
  | nil => rfl
  | cons p tl ih =>
    simp only [List.map_cons, List.mem_cons, not_or] at h
    simp only [List.foldl_cons]
    rw [ih _ h.2, lookup_dictInsert_ne _ _ _ _ h.1]

theorem lookup_foldl_dictInsert (props : List (String × Value))
    (base : List (String × Value)) (k : String) (v : Value)
    (hnodup : (props.map Prod.fst).Nodup) (hmem : (k, v) ∈ props) :
    (props.foldl (fun r kv => dictInsert r kv.1 kv.2) base).lookup k = some v := by
  induction props generalizing base with
  | nil => cases hmem
  | cons p tl ih =>
    simp only [List.map_cons, List.nodup_cons] at hnodup
    rcases List.mem_cons.mp hmem with h | h
    · subst h
      rw [List.foldl_cons, lookup_foldl_dictInsert_of_not_mem _ _ _ hnodup.1,
        lookup_dictInsert_self]
    · exact ih _ hnodup.2 h

theorem dictInsert_eq_append (r : List (String × Value)) (k : String) (v : Value)
    (h : k ∉ r.map Prod.fst) : dictInsert r k v = r ++ [(k, v)] := by
  induction r with
  | nil => rfl
  | cons p tl ih =>
    simp only [List.map_cons, List.mem_cons, not_or] at h
    simp [dictInsert, Ne.symm h.1, ih h.2]

theorem foldl_dictInsert_eq_append (props : List (String × Value))
    (base : List (String × Value))
    (hdisj : ∀ k ∈ props.map Prod.fst, k ∉ base.map Prod.fst)
    (hnodup : (props.map Prod.fst).Nodup) :
    props.foldl (fun r kv => dictInsert r kv.1 kv.2) base = base ++ props := by
  induction props generalizing base with
  | nil => simp
  | cons p tl ih =>
    obtain ⟨k1, v1⟩ := p
    simp only [List.map_cons, List.nodup_cons] at hnodup
    simp only [List.foldl_cons]
    rw [dictInsert_eq_append _ _ _ (hdisj k1 (by simp))]
    rw [ih (base ++ [(k1, v1)]) ?hd hnodup.2]
    · simp
    case hd =>
      intro k hk
      simp only [List.map_append, List.mem_append]
      push_neg
      refine ⟨hdisj k (by simp [hk]), ?_⟩
      simp only [List.map_cons, List.map_nil, List.mem_singleton]
      rintro rfl
      exact hnodup.1 hk
/-! ## Lemmas: building and selecting table rows -/

theorem lookup_map_pair (cs : List String) (g : String → Value) (c : String) (hc : c ∈ cs) :
    (cs.map (fun c1 => (c1, g c1))).lookup c = some (g c) := by
  induction cs with
  | nil => cases hc
  | cons c1 tl ih =>
    by_cases h : c = c1
    · subst h; simp [List.lookup]
    · rw [List.map_cons, lookup_cons_ne _ _ _ _ h]
      rcases List.mem_cons.mp hc with h1 | h1
      · exact absurd h1 h
      · exact ih h1

theorem lookup_map_pair_none (cs : List String) (g : String → Value) (c : String)
    (hc : c ∉ cs) : (cs.map (fun c1 => (c1, g c1))).lookup c = none := by
  induction cs with
  | nil => rfl
  | cons c1 tl ih =>
    rw [List.map_cons, lookup_cons_ne _ _ _ _ (fun h => hc (by rw [h]; exact List.mem_cons_self c1 tl))]
    exact ih (fun h => hc (List.mem_cons_of_mem _ h))

theorem rowCell_map_pair (cs : List String) (g : String → Value) (c : String) (d : Value) :
    rowCell (cs.map (fun c1 => (c1, g c1))) c d = if c ∈ cs then g c else d := by
  by_cases hc : c ∈ cs
  · rw [rowCell, lookup_map_pair cs g c hc, if_pos hc]
  · rw [if_neg hc, rowCell, lookup_map_pair_none cs g c hc]

theorem mem_foldl_cols_of_mem_acc (rows : List (List (String × Value)))
    (acc : List String) (k : String) (hk : k ∈ acc) :
    k ∈ rows.foldl (fun a r => a ++ ((r.map Prod.fst).filter (fun c => !a.contains c))) acc := by
  induction rows generalizing acc with
  | nil => exact hk
  | cons r tl ih => exact ih _ (List.mem_append_left _ hk)

theorem mem_foldl_cols (rows : List (List (String × Value)))
    (acc : List String) (r : List (String × Value)) (k : String)
    (hr : r ∈ rows) (hk : k ∈ r.map Prod.fst) :
    k ∈ rows.foldl (fun a r => a ++ ((r.map Prod.fst).filter (fun c => !a.contains c))) acc := by
  induction rows generalizing acc with
  | nil => cases hr
  | cons r1 tl ih =>
    rw [List.foldl_cons]
    rcases List.mem_cons.mp hr with h | h
    · subst h
      apply mem_foldl_cols_of_mem_acc
      by_cases ha : k ∈ acc
      · exact List.mem_append_left _ ha
      · refine List.mem_append_right _ (List.mem_filter.mpr ⟨hk, by simp [ha]⟩)
    · exact ih _ h

theorem mem_collectCols (rows : List (List (String × Value)))
    (r : List (String × Value)) (k : String) (hr : r ∈ rows) (hk : k ∈ r.map Prod.fst) :
    k ∈ collectCols rows :=
  mem_foldl_cols rows [] r k hr hk

/-- Keys of a row dict only grow under dict assignment. -/
theorem keys_sub_dictInsert (r : List (String × Value)) (k k1 : String) (v : Value)
    (h : k1 ∈ r.map Prod.fst) : k1 ∈ (dictInsert r k v).map Prod.fst := by
  induction r with
  | nil => cases h
  | cons p tl ih =>
    obtain ⟨k2, v2⟩ := p
    rcases List.mem_cons.mp h with h1 | h1
    · by_cases h2 : k2 = k <;> simp [dictInsert, h2, h1]
    · by_cases h2 : k2 = k
      · simp only [dictInsert, if_pos h2, List.map_cons, List.mem_cons]
        exact Or.inr h1
      · simp only [dictInsert, if_neg h2, List.map_cons, List.mem_cons]
        exact Or.inr (ih h1)

theorem keys_sub_foldl_dictInsert (props : List (String × Value))
    (base : List (String × Value)) (k : String) (h : k ∈ base.map Prod.fst) :
    k ∈ (props.foldl (fun r kv => dictInsert r kv.1 kv.2) base).map Prod.fst := by
  induction props generalizing base with
  | nil => exact h
  | cons p tl ih => exact ih _ (keys_sub_dictInsert _ _ _ _ h)

/-- The reserved labels are always keys of a feature's row dict. -/
theorem featureRow_has_reserved (i : Nat) (f : Feature) :
    "_feature_id" ∈ (featureRow i f).map Prod.fst ∧
      "geometry_json" ∈ (featureRow i f).map Prod.fst := by
  constructor <;> exact keys_sub_foldl_dictInsert _ _ _ (by simp)

/-- The column list `geojson_to_dataframe` selects. -/
def encCols (g : GeoDoc) : List String :=
  ["_feature_id", "geometry_json"] ++
    (collectCols (g.features.enum.map (fun p => featureRow p.1 p.2))).filter
      (fun c => c ≠ "_feature_id" ∧ c ≠ "geometry_json")

/-- Shape of the table `geojson_to_dataframe` builds for a non-empty
feature list: row `i` is the feature's row dict aligned first to the raw
frame's columns and then to the reordered column list. -/
theorem geojson_to_dataframe_eq (g : GeoDoc) (hne : g.features ≠ []) :
    geojson_to_dataframe g =
      ⟨encCols g,
        (g.features.enum.map (fun p => featureRow p.1 p.2)).map (fun r =>
          (encCols g).map (fun c =>
            (c, rowCell ((collectCols (g.features.enum.map (fun p => featureRow p.1 p.2))).map
              (fun c1 => (c1, rowCell r c1 .null))) c .null)))⟩ := by
  have hne2 : (g.features.enum.map (fun p => featureRow p.1 p.2)).isEmpty = false := by
    simp [List.isEmpty_eq_false, List.map_eq_nil_iff, List.enum_eq_nil, hne]
  rw [geojson_to_dataframe]
  simp only [hne2, Bool.false_eq_true, if_false, buildTable, selectCols, List.map_map]
  rfl
theorem lookup_none_of_not_mem_keys (r : List (String × Value)) (c : String)
    (h : c ∉ r.map Prod.fst) : r.lookup c = none := by
  induction r with
  | nil => rfl
  | cons p tl ih =>
    obtain ⟨k1, v1⟩ := p
    simp only [List.map_cons, List.mem_cons, not_or] at h
    rw [lookup_cons_ne _ _ _ _ h.1]
    exact ih h.2

/-- Cell of the encoded table at row `i`, column `c`, for a column present
in the raw frame: the value from the feature's row dict. -/
theorem encode_rowCell (g : GeoDoc) (i : Nat) (hi : i < g.features.length)
    (c : String) (hc : c ∈ encCols g)
    (hcc : c ∈ collectCols (g.features.enum.map (fun p => featureRow p.1 p.2))) :
    ∃ row, (geojson_to_dataframe g).rows[i]? = some row ∧
      rowCell row c .null = rowCell (featureRow i (g.features[i])) c .null := by
  have hne : g.features ≠ [] := List.ne_nil_of_length_pos (by omega)
  rw [geojson_to_dataframe_eq g hne]
  have hilen : i < (g.features.enum.map (fun p => featureRow p.1 p.2)).length := by
    simpa using hi
  refine ⟨_, by rw [List.getElem?_map, List.getElem?_eq_getElem (by simpa using hi)]; rfl, ?_⟩
  rw [List.getElem_map, List.getElem_enum]
  rw [rowCell_map_pair _ _ _ _, if_pos hc, rowCell_map_pair _ _ _ _, if_pos hcc]

def docC8 : GeoDoc :=
  ⟨some "FeatureCollection", [⟨some (.str "f"), .null, [("_feature_id", .str "p")]⟩]⟩

/-- C8 counterexample: a property key equal to the reserved column
`_feature_id` OVERWRITES the reserved cell — the encoded table stores the
property value `"p"`, not the feature id `"f"`, and no prefixed column is
created.  The claim ("stores that property under a disambiguated (prefixed)
column name, so the reserved columns' values are never overwritten") is
false on this input. -/
theorem cex_C8 :
    geojson_to_dataframe docC8 =
      ⟨["_feature_id", "geometry_json"],
        [[("_feature_id", .str "p"), ("geometry_json", .str "")]]⟩ ∧
      Value.str "p" ≠ .str "f" := by
  constructor
  · decide
  · decide

/-- C8 (as amended): `geojson_to_dataframe` performs no disambiguation.
A property whose key equals a reserved column name (`_feature_id` or
`geometry_json`) overwrites that reserved cell for its row — last write
wins — and the property value, not the id/geometry, ends up in the table. -/
theorem claim_C8 (g : GeoDoc) (i : Nat) (hi : i < g.features.length)
    (hnodup : ((g.features[i]).properties.map Prod.fst).Nodup) :
    (∀ v, ("_feature_id", v) ∈ (g.features[i]).properties →
      ∃ row, (geojson_to_dataframe g).rows[i]? = some row ∧
        rowCell row "_feature_id" .null = v) ∧
    (∀ v, ("geometry_json", v) ∈ (g.features[i]).properties →
      ∃ row, (geojson_to_dataframe g).rows[i]? = some row ∧
        rowCell row "geometry_json" .null = v) := by
  have hmemrow : featureRow i (g.features[i]) ∈
      g.features.enum.map (fun p => featureRow p.1 p.2) := by
    have h1 : (i, g.features[i]) ∈ g.features.enum := by
      have := List.getElem_enum g.features i (by simpa using hi)
      exact this ▸ List.getElem_mem _
    exact List.mem_map.mpr ⟨(i, g.features[i]), h1, rfl⟩
  constructor
  all_goals intro v hmem
  · obtain ⟨row, hrow, hcell⟩ := encode_rowCell g i hi "_feature_id" (by simp [encCols])
      (mem_collectCols _ _ _ hmemrow (featureRow_has_reserved i _).1)
    refine ⟨row, hrow, ?_⟩
    simp only [featureRow] at hcell
    rw [hcell, rowCell, lookup_foldl_dictInsert _ _ _ v hnodup hmem]
  · obtain ⟨row, hrow, hcell⟩ := encode_rowCell g i hi "geometry_json" (by simp [encCols])
      (mem_collectCols _ _ _ hmemrow (featureRow_has_reserved i _).2)
    refine ⟨row, hrow, ?_⟩
    simp only [featureRow] at hcell
    rw [hcell, rowCell, lookup_foldl_dictInsert _ _ _ v hnodup hmem]

/-- Witness for C8 at a concrete input. -/
theorem claim_C8_witness :
    (0 < docC8.features.length ∧
      ((docC8.features[0]).properties.map Prod.fst).Nodup) ∧
    (∃ row, (geojson_to_dataframe docC8).rows[0]? = some row ∧
      rowCell row "_feature_id" .null = .str "p") := by
  refine ⟨⟨by decide, by decide⟩, ?_⟩
  exact (claim_C8 docC8 0 (by decide) (by decide)).1 (.str "p") (by decide)

def tblC2 : Table := ⟨["a"], [[("a", .str "v")]]⟩

/-- C2 counterexample: on a table without a `geometry_json` column, decode
does NOT abort — `row.get("geometry_json", "")` silently defaults — and a
complete FeatureCollection document is returned.  The claim ("raises
MissingColumnError and produces no document") is false on this input. -/
theorem cex_C2 :
    dataframe_to_geojson tblC2 =
      ⟨some "FeatureCollection", [⟨some .null, .null, [("a", .str "v")]⟩]⟩ := by
  decide

/-- C2 (as amended): `dataframe_to_geojson` is total; there is no
`MissingColumnError` anywhere in the code.  On a table lacking
`geometry_json` it still returns a full FeatureCollection, one feature per
row, every feature with a null geometry (the missing column is read as
blank). -/
theorem claim_C2 (t : Table) (hmiss : "geometry_json" ∉ t.cols)
    (halign : ∀ r ∈ t.rows, r.map Prod.fst = t.cols) :
    (dataframe_to_geojson t).ty = some "FeatureCollection" ∧
    (dataframe_to_geojson t).features.length = t.rows.length ∧
    ∀ f ∈ (dataframe_to_geojson t).features, f.geometry = .null := by
  refine ⟨rfl, by simp [dataframe_to_geojson], ?_⟩
  intro f hf
  rw [dataframe_to_geojson] at hf
  obtain ⟨r, hr, rfl⟩ := List.mem_map.mp hf
  show decodeGeom (rowCell r "geometry_json" (.str "")) = .null
  rw [rowCell, lookup_none_of_not_mem_keys r _ (by rw [halign r hr]; exact hmiss)]
  decide

/-- Witness for C2 at a concrete input. -/
theorem claim_C2_witness :
    ("geometry_json" ∉ tblC2.cols ∧ ∀ r ∈ tblC2.rows, r.map Prod.fst = tblC2.cols) ∧
    ((dataframe_to_geojson tblC2).ty = some "FeatureCollection" ∧
      (dataframe_to_geojson tblC2).features.length = tblC2.rows.length ∧
      ∀ f ∈ (dataframe_to_geojson tblC2).features, f.geometry = .null) := by
  refine ⟨⟨by decide, by decide⟩, ?_⟩
  exact claim_C2 tblC2 (by decide) (by decide)

def docsC9 : List GeoDoc :=
  [⟨some "FeatureCollection", [⟨some (.str "x"), .null, []⟩]⟩, ⟨none, []⟩]

/-- C9 counterexample: a batch of two documents, the second lacking the
`FeatureCollection` marker.  The Step 0 block produces NO combined document
at all (`valid_files` is false, so the combine never runs), contradicting
the claim that the merge still runs over the remaining valid documents. -/
theorem cex_C9 : combineStep0 docsC9 = none := by decide

/-- C9 (as amended): batch combining is all-or-nothing.  If ANY uploaded
document lacks the `FeatureCollection` type marker, the Step 0 block
combines nothing — no merge is run over the remaining valid documents. -/
theorem claim_C9 (docs : List GeoDoc)
    (hbad : ∃ d ∈ docs, d.ty ≠ some "FeatureCollection") :
    combineStep0 docs = none := by
  obtain ⟨d, hd, hne⟩ := hbad
  rw [combineStep0]
  have hall : docs.all (fun d => d.ty = some "FeatureCollection") = false := by
    rw [List.all_eq_false]
    exact ⟨d, hd, by simp [hne]⟩
  simp [hall]

/-- Witness for C9 at a concrete input. -/
theorem claim_C9_witness :
    (∃ d ∈ docsC9, d.ty ≠ some "FeatureCollection") ∧ combineStep0 docsC9 = none := by
  refine ⟨⟨⟨none, []⟩, by decide, by decide⟩, ?_⟩
  exact claim_C9 docsC9 ⟨⟨none, []⟩, by decide, by decide⟩
/-! ## Lemmas: decimal representation and fresh-id generation -/

theorem toNat_ofNat_small (n : Nat) (h : n < 55296) : (Char.ofNat n).toNat = n := by
  rw [Char.ofNat]
  split
  · rfl
  · next hv => exact absurd (Or.inl (by exact_mod_cast h)) hv

theorem digVal_digitChar (n : Nat) (h : n < 10) :
    digVal (Char.ofNat (48 + n)) = n := by
  rw [digVal, toNat_ofNat_small _ (by omega)]
  omega

theorem decVal_append_digit (ds : List Char) (c : Char) :
    decVal (ds ++ [c]) = 10 * decVal ds + digVal c := by
  rw [decVal, List.foldl_append]
  rfl

theorem decVal_natToDecAux (f : Nat) : ∀ n, n ≤ f → decVal (natToDecAux (f + 1) n) = n := by
  induction f with
  | zero =>
    intro n hn
    interval_cases n
    decide
  | succ f ih =>
    intro n hn
    rw [natToDecAux]
    by_cases h10 : n < 10
    · rw [if_pos h10]
      show decVal ([] ++ [Char.ofNat (48 + n)]) = n
      rw [decVal_append_digit, digVal_digitChar n h10]
      show 10 * decVal [] + n = n
      rw [decVal]
      simp
    · rw [if_neg h10, decVal_append_digit, digVal_digitChar _ (Nat.mod_lt n (by omega)),
        ih (n / 10) (by omega)]
      omega

theorem decVal_natToDec (n : Nat) : decVal (natToDec n).data = n :=
  decVal_natToDecAux n n (Nat.le_refl n)

theorem natToDec_injective (a b : Nat) (h : natToDec a = natToDec b) : a = b := by
  have h2 : decVal (natToDec a).data = decVal (natToDec b).data := by rw [h]
  rwa [decVal_natToDec, decVal_natToDec] at h2

theorem candId_injective (base : String) (j k : Nat) (h : candId base j = candId base k) :
    j = k := by
  rw [candId, candId] at h
  have h2 := congrArg String.data h
  simp only [String.data_append] at h2
  exact natToDec_injective j k (congrArg String.mk (List.append_cancel_left h2))

/-- The while-loop either finds the smallest free counter within its fuel,
or every candidate in the fuel window was taken. -/
theorem freshIdAux_spec (base : String) (seen : List Value) :
    ∀ fuel k,
      (∃ j, k ≤ j ∧ j < k + fuel ∧ freshIdAux base seen fuel k = candId base j ∧
        Value.str (candId base j) ∉ seen ∧
        ∀ i, k ≤ i → i < j → Value.str (candId base i) ∈ seen) ∨
      ((∀ i, k ≤ i → i < k + fuel → Value.str (candId base i) ∈ seen) ∧
        freshIdAux base seen fuel k = candId base (k + fuel)) := by
  intro fuel
  induction fuel with
  | zero =>
    intro k
    exact Or.inr ⟨fun i h1 h2 => absurd h2 (by omega), rfl⟩
  | succ f ih =>
    intro k
    rw [freshIdAux]
    by_cases hk : Value.str (candId base k) ∈ seen
    · rw [if_pos hk]
      rcases ih (k + 1) with ⟨j, hj1, hj2, hj3, hj4, hj5⟩ | ⟨h1, h2⟩
      · refine Or.inl ⟨j, by omega, by omega, hj3, hj4, ?_⟩
        intro i hi1 hi2
        by_cases hik : i = k
        · exact hik ▸ hk
        · exact hj5 i (by omega) hi2
      · refine Or.inr ⟨?_, by rw [h2]; congr 1; omega⟩
        intro i hi1 hi2
        by_cases hik : i = k
        · exact hik ▸ hk
        · exact h1 i (by omega) (by omega)
    · rw [if_neg hk]
      exact Or.inl ⟨k, Nat.le_refl k, by omega, rfl, hk, fun i h1 h2 => absurd h2 (by omega)⟩

theorem length_le_of_nodup_subset {α : Type} [DecidableEq α] (l m : List α)
    (h : l.Nodup) (hs : ∀ x ∈ l, x ∈ m) : l.length ≤ m.length :=
  calc l.length = l.toFinset.card := (List.toFinset_card_of_nodup h).symm
    _ ≤ m.toFinset.card :=
      Finset.card_le_card (fun x hx => List.mem_toFinset.mpr (hs x (List.mem_toFinset.mp hx)))
    _ ≤ m.length := List.toFinset_card_le m

/-- `freshId` returns the candidate with the SMALLEST counter `≥ 1` that is
not in the seen set (the default fuel `seen.length + 1` always suffices, by
pigeonhole on the distinct candidates). -/
theorem freshId_spec (base : String) (seen : List Value) :
    ∃ j, 1 ≤ j ∧ freshId base seen = candId base j ∧
      Value.str (candId base j) ∉ seen ∧
      ∀ i, 1 ≤ i → i < j → Value.str (candId base i) ∈ seen := by
  rcases freshIdAux_spec base seen (seen.length + 1) 1 with ⟨j, h1, _, h3, h4, h5⟩ | ⟨h1, _⟩
  · exact ⟨j, h1, h3, h4, h5⟩
  · exfalso
    have hsub : ∀ x ∈ (List.range (seen.length + 1)).map
        (fun r => Value.str (candId base (1 + r))), x ∈ seen := by
      intro x hx
      obtain ⟨r, hr, rfl⟩ := List.mem_map.mp hx
      exact h1 (1 + r) (by omega) (by have := List.mem_range.mp hr; omega)
    have hnodup : ((List.range (seen.length + 1)).map
        (fun r => Value.str (candId base (1 + r)))).Nodup := by
      refine List.Nodup.map ?_ (List.nodup_range _)
      intro a b hab
      have : candId base (1 + a) = candId base (1 + b) := by
        injection hab
      have := candId_injective base _ _ this
      omega
    have := length_le_of_nodup_subset _ seen hnodup hsub
    simp at this

theorem freshId_not_mem (base : String) (seen : List Value) :
    Value.str (freshId base seen) ∉ seen := by
  obtain ⟨j, _, heq, hnm, _⟩ := freshId_spec base seen
  exact heq ▸ hnm

theorem candId_ne_empty (base : String) (j : Nat) : candId base j ≠ "" := by
  intro h
  have := congrArg (fun s => s.data.length) h
  simp [candId, String.data_append] at this
/-! ## Lemmas: the combine loop's id bookkeeping -/

/-- The (truthy) ids of a feature list, in order: exactly the ids the
combine loop records in its seen set. -/
def truthyIds (fs : List Feature) : List Value :=
  fs.filterMap (fun f => match f.id with
    | some v => if v.truthy then some v else none
    | none => none)

theorem truthyIds_append (a b : List Feature) :
    truthyIds (a ++ b) = truthyIds a ++ truthyIds b :=
  List.filterMap_append a b _

theorem truthy_freshId (base : String) (seen : List Value) :
    (Value.str (freshId base seen)).truthy := by
  obtain ⟨j, _, heq, _, _⟩ := freshId_spec base seen
  rw [heq]
  show (candId base j != "") = true
  simp [bne_iff_ne, candId_ne_empty]

theorem combineStepF_none (st : List Value × List Feature) (f : Feature)
    (hid : f.id = none) : combineStepF st f = (st.1, st.2 ++ [f]) := by
  simp [combineStepF, hid]

theorem combineStepF_notruthy (st : List Value × List Feature) (f : Feature) (v : Value)
    (hid : f.id = some v) (htr : v.truthy = false) :
    combineStepF st f = (st.1, st.2 ++ [f]) := by
  simp [combineStepF, hid, htr]

theorem combineStepF_new (st : List Value × List Feature) (f : Feature) (v : Value)
    (hid : f.id = some v) (htr : v.truthy = true) (hmem : v ∉ st.1) :
    combineStepF st f = (st.1 ++ [v], st.2 ++ [f]) := by
  have hc : st.1.contains v = false := by
    rw [List.contains_eq_any_beq]
    simp [List.any_eq_false]
    intro x hx
    intro heq
    exact hmem (heq ▸ hx)
  simp [combineStepF, hid, htr, hc, hmem]

theorem combineStepF_collide (st : List Value × List Feature) (f : Feature) (v : Value)
    (hid : f.id = some v) (htr : v.truthy = true) (hmem : v ∈ st.1) :
    combineStepF st f =
      (st.1 ++ [Value.str (freshId (pyStr v) st.1)],
        st.2 ++ [{ f with id := some (.str (freshId (pyStr v) st.1)) }]) := by
  have hc : st.1.contains v = true := List.elem_eq_true_of_mem hmem
  simp [combineStepF, hid, htr, hc, hmem, truthy_freshId]

theorem combineStepF_preserves (st : List Value × List Feature) (f : Feature)
    (h1 : (truthyIds st.2).Nodup) (h2 : ∀ v ∈ truthyIds st.2, v ∈ st.1) :
    (truthyIds (combineStepF st f).2).Nodup ∧
      ∀ v ∈ truthyIds (combineStepF st f).2, v ∈ (combineStepF st f).1 := by
  have hgrow : ∀ (seen : List Value) (fs : List Feature) (v1 : Value),
      (truthyIds fs).Nodup → (∀ v ∈ truthyIds fs, v ∈ seen) → v1 ∉ seen →
      (truthyIds fs ++ [v1]).Nodup ∧ ∀ v ∈ truthyIds fs ++ [v1], v ∈ seen ++ [v1] := by
    intro seen fs v1 ha hb hc
    constructor
    · rw [List.nodup_append]
      refine ⟨ha, List.nodup_singleton _, ?_⟩
      intro x hx hx1
      rw [List.mem_singleton] at hx1
      subst hx1
      exact hc (hb _ hx)
    · intro w hw
      rcases List.mem_append.mp hw with h | h
      · exact List.mem_append_left _ (hb _ h)
      · exact List.mem_append_right _ h
  rcases hid : f.id with _ | v
  · rw [combineStepF_none st f hid]
    have hids : truthyIds (st.2 ++ [f]) = truthyIds st.2 := by
      rw [truthyIds_append]
      simp [truthyIds, List.filterMap, hid]
    simp only [hids]
    exact ⟨h1, h2⟩
  · by_cases htr : v.truthy
    · by_cases hmem : v ∈ st.1
      · rw [combineStepF_collide st f v hid htr hmem]
        have hids : truthyIds
            (st.2 ++ [{ f with id := some (.str (freshId (pyStr v) st.1)) }]) =
            truthyIds st.2 ++ [Value.str (freshId (pyStr v) st.1)] := by
          rw [truthyIds_append]
          simp [truthyIds, List.filterMap, truthy_freshId]
        rw [hids]
        exact hgrow st.1 st.2 _ h1 h2 (freshId_not_mem _ _)
      · rw [combineStepF_new st f v hid htr hmem]
        have hids : truthyIds (st.2 ++ [f]) = truthyIds st.2 ++ [v] := by
          rw [truthyIds_append]
          simp [truthyIds, List.filterMap, hid, htr]
        rw [hids]
        exact hgrow st.1 st.2 _ h1 h2 hmem
    · rw [combineStepF_notruthy st f v hid (by simpa using htr)]
      have hids : truthyIds (st.2 ++ [f]) = truthyIds st.2 := by
        rw [truthyIds_append]
        simp [truthyIds, List.filterMap, hid, htr]
      simp only [hids]
      exact ⟨h1, h2⟩

theorem combine_fold_invariant (fs : List Feature) :
    ∀ st, (truthyIds st.2).Nodup → (∀ v ∈ truthyIds st.2, v ∈ st.1) →
      (truthyIds (fs.foldl combineStepF st).2).Nodup ∧
        ∀ v ∈ truthyIds (fs.foldl combineStepF st).2, v ∈ (fs.foldl combineStepF st).1 := by
  induction fs with
  | nil => intro st h1 h2; exact ⟨h1, h2⟩
  | cons f tl ih =>
    intro st h1 h2
    rw [List.foldl_cons]
    obtain ⟨h1s, h2s⟩ := combineStepF_preserves st f h1 h2
    exact ih _ h1s h2s

def docX : GeoDoc := ⟨some "FeatureCollection", [⟨some (.str "x"), .null, []⟩]⟩

/-- C3 (as amended — "non-null id" must be read as "truthy id", see
`cex_C3`): (1) merging three collections that each contribute a feature
with id `"x"` yields ids `"x"`, `"x_1"`, `"x_2"`; (2) the id generated for
a duplicate appends `_k` for the SMALLEST positive `k` avoiding a further
collision with the already-seen ids; (3) in any merge the output ids are
unique among features whose (original or renamed) id is truthy — which are
exactly the features that originally had a truthy id. -/
theorem claim_C3 :
    ((combine_geojson_files [docX, docX, docX]).features.map Feature.id =
      [some (.str "x"), some (.str "x_1"), some (.str "x_2")]) ∧
    (∀ base seen, ∃ j, 1 ≤ j ∧ freshId base seen = candId base j ∧
      Value.str (candId base j) ∉ seen ∧
      ∀ i, 1 ≤ i → i < j → Value.str (candId base i) ∈ seen) ∧
    (∀ docs, (truthyIds (combine_geojson_files docs).features).Nodup) := by
  refine ⟨by decide, freshId_spec, ?_⟩
  intro docs
  rw [combine_geojson_files]
  exact (combine_fold_invariant _ ([], []) (by simp [truthyIds]) (by simp [truthyIds])).1

/-- Witness applying C3's universal part at a concrete input. -/
theorem claim_C3_witness :
    (truthyIds (combine_geojson_files [docX, docX]).features).Nodup :=
  claim_C3.2.2 [docX, docX]

def docEmptyId : GeoDoc := ⟨some "FeatureCollection", [⟨some (.str ""), .null, []⟩]⟩

/-- C3 counterexample: the code tests `if original_id` (Python truthiness),
not "non-null".  Two features with the non-null id `""` are never
deduplicated: both keep id `""`, so the output ids are NOT unique among
features that originally had a (non-null) id, contradicting the claim. -/
theorem cex_C3 :
    (combine_geojson_files [docEmptyId, docEmptyId]).features.filterMap Feature.id =
        [.str "", .str ""] ∧
      ¬ ((combine_geojson_files [docEmptyId, docEmptyId]).features.filterMap
          Feature.id).Nodup := by
  constructor
  · decide
  · intro h
    rw [show (combine_geojson_files [docEmptyId, docEmptyId]).features.filterMap Feature.id =
        [.str "", .str ""] from by decide] at h
    simp at h
/-! ## Lemmas: cleaning and joining -/

/-- Net effect of `clean_dataframe` on one cell: blank sentinels and nulls
become the empty string, everything else its Python string form. -/
def cleanCell (v : Value) : Value :=
  if v = .null ∨ v ∈ sentinels then .str "" else .str (pyStr v)

theorem clean_row_eq (r : List (String × Value)) :
    ((r.map (fun p => if p.2 ∈ sentinels then (p.1, Value.null) else p)).map
        (fun p => if p.2 = Value.null then (p.1, Value.str "") else p)).map
      (fun p => (p.1, Value.str (pyStr p.2))) = r.map (fun p => (p.1, cleanCell p.2)) := by
  induction r with
  | nil => rfl
  | cons p tl ih =>
    obtain ⟨k, v⟩ := p
    simp only [List.map_cons, ih, List.cons.injEq, and_true]
    by_cases hs : v ∈ sentinels
    · have hs2 := hs
      simp only [sentinels, List.mem_cons, List.not_mem_nil, or_false] at hs2
      rcases hs2 with h | h | h | h | h | h <;> subst h <;>
        simp [cleanCell, sentinels, pyStr]
    · by_cases hn : v = .null
      · subst hn; simp [cleanCell, sentinels, pyStr]
      · simp [hs, hn, cleanCell]

theorem clean_dataframe_eq (t : Table) :
    clean_dataframe t = ⟨t.cols, t.rows.map (List.map (fun p => (p.1, cleanCell p.2)))⟩ := by
  rw [clean_dataframe, df_replace, df_fillna, df_astype_str]
  refine congrArg (Table.mk t.cols) ?_
  rw [List.map_map, List.map_map]
  refine List.map_congr_left (fun r _ => ?_)
  show ((r.map _).map _).map _ = _
  exact clean_row_eq r

/-- Net effect of cleaning followed by key normalisation on one (column,
cell) pair. -/
def joinNorm (key : String) (p : String × Value) : String × Value :=
  if p.1 = key then (p.1, .str (pyStrip (pyStr (cleanCell p.2)))) else (p.1, cleanCell p.2)

/-- The fully normalised table `join_attributes` actually joins. -/
def normTable (t : Table) (key : String) : Table :=
  ⟨t.cols, t.rows.map (List.map (joinNorm key))⟩

theorem norm_row_eq (key : String) (r : List (String × Value)) :
    (r.map (fun p => (p.1, cleanCell p.2))).map (fun p =>
      if p.1 = key then (p.1, Value.str (pyStrip (pyStr p.2))) else p) =
      r.map (joinNorm key) := by
  induction r with
  | nil => rfl
  | cons p tl ih =>
    obtain ⟨k, v⟩ := p
    simp only [List.map_cons, ih, List.cons.injEq, and_true]
    by_cases hk : k = key
    · simp [joinNorm, hk]
    · simp [joinNorm, hk]

theorem setKeyNorm_clean_eq (t : Table) (key : String) :
    setKeyNorm (clean_dataframe t) key = normTable t key := by
  rw [clean_dataframe_eq, setKeyNorm, normTable]
  refine congrArg (Table.mk t.cols) ?_
  rw [List.map_map]
  refine List.map_congr_left (fun r _ => ?_)
  show (r.map _).map _ = _
  exact norm_row_eq key r
/-! ## Lemmas: the `_add` suffix bookkeeping of the merge -/

theorem endsAdd_append (c : String) : endsAdd (c ++ "_add") = true := by
  rw [endsAdd, String.data_append]
  have : "_add".data <:+ c.data ++ "_add".data := List.suffix_append c.data _
  exact List.isSuffixOf_iff_suffix.mpr this

theorem dropLast4_append (c : String) : dropLast4 (c ++ "_add") = c := by
  rw [dropLast4, String.data_append]
  have hlen : (c.data ++ "_add".data).length - 4 = c.data.length := by
    simp [List.length_append]
  rw [hlen]
  have := List.take_left c.data "_add".data
  rw [this]

/-- Remove every column whose label is in `D`. -/
def dropSet (D : List String) (t : Table) : Table :=
  ⟨t.cols.filter (fun c => !D.contains c),
    t.rows.map (fun r => r.filter (fun p => !D.contains p.1))⟩

theorem dropSet_nil (t : Table) : dropSet [] t = t := by
  rw [dropSet]
  simp

theorem dropColumn_dropSet (D : List String) (t : Table) (c : String) :
    dropColumn (dropSet D t) c = dropSet (D ++ [c]) t := by
  rw [dropColumn, dropSet, dropSet]
  refine congrArg₂ Table.mk ?_ ?_
  · rw [List.filter_filter]
    refine List.filter_congr (fun x _ => ?_)
    simp [List.contains_eq_any_beq, List.any_append, eq_comm]
    exact Bool.and_comm _ _
  · simp only [List.map_map]
    refine List.map_congr_left (fun r _ => ?_)
    show (r.filter _).filter _ = _
    rw [List.filter_filter]
    refine List.filter_congr (fun x _ => ?_)
    simp [List.contains_eq_any_beq, List.any_append, eq_comm]
    exact Bool.and_comm _ _
theorem dropAddPass_append (cs1 cs2 : List String) (t : Table) :
    dropAddPass (cs1 ++ cs2) t = dropAddPass cs2 (dropAddPass cs1 t) := by
  induction cs1 generalizing t with
  | nil => rfl
  | cons c tl ih =>
    rw [List.cons_append, dropAddPass, dropAddPass]
    by_cases h : endsAdd c ∧ t.cols.contains (dropLast4 c)
    · rw [if_pos h, if_pos h, ih]
    · rw [if_neg h, if_neg h, ih]

theorem dropAddPass_skip (cs : List String) (t : Table)
    (h : ∀ c ∈ cs, endsAdd c = false) : dropAddPass cs t = t := by
  induction cs with
  | nil => rfl
  | cons c tl ih =>
    rw [dropAddPass, if_neg (by simp [h c (List.mem_cons_self c tl)]), ih]
    intro c1 h1
    exact h c1 (List.mem_cons_of_mem _ h1)

theorem not_mem_of_endsAdd_false (c : String) (D : List String)
    (hc : endsAdd c = false) (hD : ∀ d ∈ D, endsAdd d = true) : c ∉ D := by
  intro h
  rw [hD c h] at hc
  cases hc

/-- Running the drop loop over the renamed addition columns removes exactly
the `_add`-suffixed collision columns. -/
theorem dropAddPass_ren (mc : List String) (T0 : Table)
    (hmc : ∀ c ∈ mc, c ∈ T0.cols) :
    ∀ (cs D : List String),
      (∀ c ∈ cs, endsAdd c = false) →
      (∀ d ∈ D, endsAdd d = true) →
      dropAddPass (cs.map (mergeRename mc)) (dropSet D T0) =
        dropSet (D ++ (cs.filter (fun c => mc.contains c)).map (fun c => c ++ "_add")) T0 := by
  intro cs
  induction cs with
  | nil =>
    intro D _ _
    simp [dropAddPass]
  | cons c tl ih =>
    intro D hce hD
    have hce1 : endsAdd c = false := hce c (List.mem_cons_self c tl)
    have hcetl : ∀ c1 ∈ tl, endsAdd c1 = false :=
      fun c1 h1 => hce c1 (List.mem_cons_of_mem _ h1)
    rw [List.map_cons, dropAddPass]
    by_cases hcm : c ∈ mc
    · have hren : mergeRename mc c = c ++ "_add" := by
        rw [mergeRename, if_pos (List.elem_eq_true_of_mem hcm)]
      have hcond : endsAdd (mergeRename mc c) ∧
          (dropSet D T0).cols.contains (dropLast4 (mergeRename mc c)) := by
        rw [hren, endsAdd_append, dropLast4_append]
        refine ⟨rfl, ?_⟩
        apply List.elem_eq_true_of_mem
        rw [dropSet]
        refine List.mem_filter.mpr ⟨hmc c hcm, ?_⟩
        simpa using not_mem_of_endsAdd_false c D hce1 hD
      rw [if_pos hcond, hren, dropColumn_dropSet]
      rw [ih (D ++ [c ++ "_add"]) hcetl ?hD2]
      · rw [List.filter_cons_of_pos (by simpa using hcm), List.map_cons]
        rw [List.append_assoc]
        rfl
      case hD2 =>
        intro d hd
        rcases List.mem_append.mp hd with h | h
        · exact hD d h
        · rw [List.mem_singleton] at h
          subst h
          exact endsAdd_append c
    · have hren : mergeRename mc c = c := by
        rw [mergeRename, if_neg]
        intro hcon
        exact hcm (by rwa [List.contains_eq_any_beq, List.any_beq] at hcon)
      have hcond : ¬ (endsAdd (mergeRename mc c) ∧
          (dropSet D T0).cols.contains (dropLast4 (mergeRename mc c))) := by
        rw [hren]
        intro hcon
        rw [hce1] at hcon
        cases hcon.1
      rw [if_neg hcond, ih D hcetl hD]
      rw [List.filter_cons_of_neg (by simpa using hcm)]
/-- An aligned row over distinct column labels is determined by its cells. -/
theorem row_eq_map_of_aligned (r : List (String × Value)) (cs : List String)
    (halign : r.map Prod.fst = cs) (hnodup : cs.Nodup) :
    r = cs.map (fun c => (c, rowCell r c .null)) := by
  induction r generalizing cs with
  | nil => subst halign; rfl
  | cons p tl ih =>
    obtain ⟨k, v⟩ := p
    subst halign
    simp only [List.map_cons, List.nodup_cons] at hnodup ⊢
    refine congrArg₂ List.cons ?_ ?_
    · rw [rowCell, lookup_cons_self]
    · calc tl = (tl.map Prod.fst).map (fun c => (c, rowCell tl c .null)) :=
            ih (tl.map Prod.fst) rfl hnodup.2
        _ = (tl.map Prod.fst).map (fun c => (c, rowCell ((k, v) :: tl) c .null)) := by
            refine List.map_congr_left (fun c hc => ?_)
            have hck : c ≠ k := fun h => hnodup.1 (h ▸ hc)
            rw [rowCell, rowCell, lookup_cons_ne _ _ _ _ hck]

theorem map_fst_joinNorm (key : String) (r : List (String × Value)) :
    (r.map (joinNorm key)).map Prod.fst = r.map Prod.fst := by
  induction r with
  | nil => rfl
  | cons p tl ih =>
    obtain ⟨k, v⟩ := p
    by_cases hk : k = key <;> simp [joinNorm, hk, ih]

/-- Specification-level left join (§4.3 of the spec): every `main` row in
order; one output row per matching `addition` row, or a single null-padded
row when nothing matches; addition columns colliding with `main` names
(and the key) are gone, the survivors keep `addition`'s order. -/
def joinSpec (M A : Table) (key : String) : Table :=
  ⟨M.cols ++ (A.cols.erase key).filter (fun c => !M.cols.contains c),
    M.rows.flatMap (fun r =>
      let ms := A.rows.filter (fun s => rowCell s key .null = rowCell r key .null)
      if ms.isEmpty then
        [r ++ ((A.cols.erase key).filter (fun c => !M.cols.contains c)).map
          (fun c => (c, Value.null))]
      else ms.map (fun s => r ++ ((A.cols.erase key).filter (fun c => !M.cols.contains c)).map
        (fun c => (c, rowCell s c .null))))⟩
theorem mem_D_endsAdd (addCols mc : List String) (d : String)
    (hd : d ∈ (addCols.filter (fun c => mc.contains c)).map (fun c => c ++ "_add")) :
    endsAdd d = true := by
  obtain ⟨c, _, rfl⟩ := List.mem_map.mp hd
  exact endsAdd_append c

theorem filter_not_D_id (cs D : List String)
    (hcs : ∀ c ∈ cs, endsAdd c = false) (hD : ∀ d ∈ D, endsAdd d = true) :
    cs.filter (fun c => !D.contains c) = cs := by
  refine List.filter_eq_self.mpr (fun c hc => ?_)
  simpa using not_mem_of_endsAdd_false c D (hcs c hc) hD

theorem filter_pairs_not_D_id (r : List (String × Value)) (D : List String)
    (hcs : ∀ p ∈ r, endsAdd p.1 = false) (hD : ∀ d ∈ D, endsAdd d = true) :
    r.filter (fun p => !D.contains p.1) = r := by
  refine List.filter_eq_self.mpr (fun p hp => ?_)
  simpa using not_mem_of_endsAdd_false p.1 D (hcs p hp) hD

theorem filter_ren_pairs (mc D : List String) (g : String → Value) :
    ∀ cs : List String,
      (∀ c ∈ cs, endsAdd c = false) →
      (∀ c ∈ cs, c ∈ mc → (c ++ "_add") ∈ D) →
      (∀ d ∈ D, endsAdd d = true) →
      (cs.map (fun c => (mergeRename mc c, g c))).filter (fun p => !D.contains p.1) =
        (cs.filter (fun c => !mc.contains c)).map (fun c => (c, g c)) := by
  intro cs
  induction cs with
  | nil => intro _ _ _; rfl
  | cons c tl ih =>
    intro hcs hcm hD
    have hce : endsAdd c = false := hcs c (List.mem_cons_self c tl)
    have htl := fun c1 h => hcs c1 (List.mem_cons_of_mem _ h)
    have htlm := fun c1 h => hcm c1 (List.mem_cons_of_mem _ h)
    rw [List.map_cons]
    by_cases hm : c ∈ mc
    · have hren : mergeRename mc c = c ++ "_add" := by
        rw [mergeRename, if_pos (by simpa using hm)]
      rw [List.filter_cons_of_neg (by
          simp only [hren, Bool.not_eq_eq_eq_not, Bool.not_false]
          simpa using hcm c (List.mem_cons_self c tl) hm),
        List.filter_cons_of_neg (by simpa using hm)]
      exact ih htl htlm hD
    · have hren : mergeRename mc c = c := by
        rw [mergeRename, if_neg (by simpa using hm)]
      rw [List.filter_cons_of_pos (by
          simp only [hren, Bool.not_eq_eq_eq_not, Bool.not_false]
          simpa using not_mem_of_endsAdd_false c D hce hD),
        List.filter_cons_of_pos (by simpa using hm), List.map_cons]
      rw [ih htl htlm hD, hren]

theorem filter_ren_cols (mc D : List String) :
    ∀ cs : List String,
      (∀ c ∈ cs, endsAdd c = false) →
      (∀ c ∈ cs, c ∈ mc → (c ++ "_add") ∈ D) →
      (∀ d ∈ D, endsAdd d = true) →
      (cs.map (mergeRename mc)).filter (fun c => !D.contains c) =
        cs.filter (fun c => !mc.contains c) := by
  intro cs
  induction cs with
  | nil => intro _ _ _; rfl
  | cons c tl ih =>
    intro hcs hcm hD
    have hce : endsAdd c = false := hcs c (List.mem_cons_self c tl)
    have htl := fun c1 h => hcs c1 (List.mem_cons_of_mem _ h)
    have htlm := fun c1 h => hcm c1 (List.mem_cons_of_mem _ h)
    rw [List.map_cons]
    by_cases hm : c ∈ mc
    · have hren : mergeRename mc c = c ++ "_add" := by
        rw [mergeRename, if_pos (by simpa using hm)]
      rw [List.filter_cons_of_neg (by
          simp only [hren, Bool.not_eq_eq_eq_not, Bool.not_false]
          simpa using hcm c (List.mem_cons_self c tl) hm),
        List.filter_cons_of_neg (by simpa using hm)]
      exact ih htl htlm hD
    · have hren : mergeRename mc c = c := by
        rw [mergeRename, if_neg (by simpa using hm)]
      rw [List.filter_cons_of_pos (by
          simp only [hren, Bool.not_eq_eq_eq_not, Bool.not_false]
          simpa using not_mem_of_endsAdd_false c D hce hD),
        List.filter_cons_of_pos (by simpa using hm)]
      rw [ih htl htlm hD, hren]
theorem flatMap_congr_mem {α β : Type} (l : List α) (f g : α → List β)
    (h : ∀ x ∈ l, f x = g x) : l.flatMap f = l.flatMap g := by
  induction l with
  | nil => rfl
  | cons x tl ih =>
    rw [List.flatMap_cons, List.flatMap_cons, h x (List.mem_cons_self x tl),
      ih (fun y hy => h y (List.mem_cons_of_mem _ hy))]

theorem nodup_erase_eq_filter (l : List String) (h : l.Nodup) (a : String) :
    l.erase a = l.filter (fun x => x ≠ a) := by
  have := h.erase_eq_filter a
  simpa [bne_iff_ne] using this

/-- The addition-row fragment of a merged row, for an aligned addition row:
the non-key cells, with collision labels `_add`-suffixed. -/
theorem renRow_eq (acols : List String) (key : String) (mc : List String)
    (han : acols.Nodup) (s : List (String × Value)) (hals : s.map Prod.fst = acols) :
    (s.filter (fun p => p.1 ≠ key)).map (fun p => (mergeRename mc p.1, p.2)) =
      (acols.erase key).map (fun c => (mergeRename mc c, rowCell s c .null)) := by
  have hs := row_eq_map_of_aligned s acols hals han
  calc (s.filter (fun p => p.1 ≠ key)).map (fun p => (mergeRename mc p.1, p.2))
      = (((acols.map (fun c => (c, rowCell s c .null))).filter
          (fun p => p.1 ≠ key)).map (fun p => (mergeRename mc p.1, p.2))) := by
        rw [← hs]
    _ = (acols.erase key).map (fun c => (mergeRename mc c, rowCell s c .null)) := by
        rw [List.filter_map, List.map_map, nodup_erase_eq_filter acols han key]
        rfl

/-- Master lemma: under the well-formedness conditions every real table
coming out of the app satisfies (distinct column labels, no label ending in
`_add`, key present on both sides, rows aligned to the column list),
`join_attributes` is exactly the specification-level left join of the two
normalised tables. -/
theorem join_attributes_eq (m a : Table) (key : String)
    (hmn : m.cols.Nodup) (han : a.cols.Nodup)
    (hma : ∀ c ∈ m.cols, endsAdd c = false)
    (haa : ∀ c ∈ a.cols, endsAdd c = false)
    (hkm : key ∈ m.cols) (hka : key ∈ a.cols)
    (halm : ∀ r ∈ m.rows, r.map Prod.fst = m.cols)
    (hala : ∀ r ∈ a.rows, r.map Prod.fst = a.cols) :
    join_attributes (some m) (some a) key =
      some (joinSpec (normTable m key) (normTable a key) key) := by
  have hcm : (clean_dataframe m).cols = m.cols := by rw [clean_dataframe_eq]
  have hca : (clean_dataframe a).cols = a.cols := by rw [clean_dataframe_eq]
  rw [join_attributes]
  rw [hcm, hca, if_pos hkm, if_pos hka, setKeyNorm_clean_eq, setKeyNorm_clean_eq]
  show some (dropAddPass (leftMerge (normTable m key) (normTable a key) key).cols
      (leftMerge (normTable m key) (normTable a key) key)) =
    some (joinSpec (normTable m key) (normTable a key) key)
  congr 1
  -- abbreviations
  have hMrows : ∀ r ∈ (normTable m key).rows, r.map Prod.fst = m.cols := by
    intro r hr
    rw [normTable] at hr
    obtain ⟨r0, hr0, rfl⟩ := List.mem_map.mp hr
    rw [map_fst_joinNorm]
    exact halm r0 hr0
  have hArows : ∀ s ∈ (normTable a key).rows, s.map Prod.fst = a.cols := by
    intro s hs
    rw [normTable] at hs
    obtain ⟨s0, hs0, rfl⟩ := List.mem_map.mp hs
    rw [map_fst_joinNorm]
    exact hala s0 hs0
  have hD : ∀ d ∈ ((a.cols.erase key).filter (fun c => m.cols.contains c)).map
      (fun c => c ++ "_add"), endsAdd d = true := mem_D_endsAdd _ _
  have haddc : ∀ c ∈ a.cols.erase key, endsAdd c = false :=
    fun c h => haa c (List.mem_of_mem_erase h)
  have hcmD : ∀ c ∈ a.cols.erase key, c ∈ m.cols →
      (c ++ "_add") ∈ ((a.cols.erase key).filter (fun c => m.cols.contains c)).map
        (fun c => c ++ "_add") :=
    fun c h hm => List.mem_map.mpr ⟨c, List.mem_filter.mpr ⟨h, by simpa using hm⟩, rfl⟩
  have hlmcols : (leftMerge (normTable m key) (normTable a key) key).cols =
      m.cols ++ (a.cols.erase key).map (mergeRename m.cols) := rfl
  -- run the drop loop
  have hpass : dropAddPass (leftMerge (normTable m key) (normTable a key) key).cols
      (leftMerge (normTable m key) (normTable a key) key) =
      dropSet (((a.cols.erase key).filter (fun c => m.cols.contains c)).map
        (fun c => c ++ "_add")) (leftMerge (normTable m key) (normTable a key) key) := by
    rw [hlmcols, dropAddPass_append, dropAddPass_skip _ _ hma]
    have h0 := dropAddPass_ren m.cols (leftMerge (normTable m key) (normTable a key) key)
      (fun c hc => hlmcols ▸ List.mem_append_left _ hc)
      (a.cols.erase key) [] haddc (by intro d hd; cases hd)
    rw [dropSet_nil] at h0
    rw [h0, List.nil_append]
  rw [hpass]
  -- the dropped merge IS the specification join
  rw [dropSet, joinSpec]
  refine congrArg₂ Table.mk ?_ ?_
  · rw [hlmcols, List.filter_append,
      filter_not_D_id m.cols _ hma hD,
      filter_ren_cols m.cols _ (a.cols.erase key) haddc hcmD hD]
    rfl
  · have hlmrows : (leftMerge (normTable m key) (normTable a key) key).rows =
        (normTable m key).rows.flatMap (fun r =>
          let ms := (normTable a key).rows.filter
            (fun s => rowCell s key .null = rowCell r key .null)
          if ms.isEmpty then
            [r ++ ((a.cols.erase key).map (mergeRename m.cols)).map (fun c => (c, Value.null))]
          else ms.map (fun s => r ++ (s.filter (fun p => p.1 ≠ key)).map
            (fun p => (mergeRename m.cols p.1, p.2)))) := rfl
    rw [hlmrows, List.map_flatMap]
    refine flatMap_congr_mem _ _ _ (fun r hr => ?_)
    by_cases hms : ((normTable a key).rows.filter
        (fun s => rowCell s key .null = rowCell r key .null)).isEmpty
    · simp only [hms, if_true, List.map_cons, List.map_nil]
      rw [List.filter_append, filter_pairs_not_D_id r _
        (fun p hp => hma p.1 ((hMrows r hr) ▸ List.mem_map.mpr ⟨p, hp, rfl⟩)) hD]
      rw [List.map_map]
      have hpad : ((a.cols.erase key).map ((fun c => (c, Value.null)) ∘ mergeRename m.cols)) =
          ((a.cols.erase key).map (fun c => (mergeRename m.cols c, Value.null))) := rfl
      rw [hpad, filter_ren_pairs m.cols _ (fun _ => Value.null) (a.cols.erase key)
        haddc hcmD hD]
      rfl
    · rw [Bool.not_eq_true] at hms
      simp only [hms, Bool.false_eq_true, if_false, List.map_map]
      refine List.map_congr_left (fun s hs => ?_)
      have hsA : s ∈ (normTable a key).rows := (List.mem_filter.mp hs).1
      show (r ++ _).filter _ = _
      rw [List.filter_append, filter_pairs_not_D_id r _
        (fun p hp => hma p.1 ((hMrows r hr) ▸ List.mem_map.mpr ⟨p, hp, rfl⟩)) hD]
      rw [renRow_eq a.cols key m.cols han s (hArows s hsA),
        filter_ren_pairs m.cols _ (fun c => rowCell s c .null) (a.cols.erase key)
          haddc hcmD hD]
      rfl
/-! ## Shape facts about the specification join -/

theorem map_fst_map_pair (l : List String) (g : String → Value) :
    (l.map (fun c => (c, g c))).map Prod.fst = l := by
  induction l with
  | nil => rfl
  | cons c tl ih => simp only [List.map_cons, ih]

theorem joinSpec_mem_unmatched (M A : Table) (key : String) (r : List (String × Value))
    (hr : r ∈ M.rows)
    (hempty : A.rows.filter (fun s => rowCell s key .null = rowCell r key .null) = []) :
    r ++ ((A.cols.erase key).filter (fun c => !M.cols.contains c)).map
      (fun c => (c, Value.null)) ∈ (joinSpec M A key).rows := by
  rw [joinSpec]
  refine List.mem_flatMap.mpr ⟨r, hr, ?_⟩
  simp only [hempty, List.isEmpty_nil, if_true]
  simp

theorem joinSpec_mem_matched (M A : Table) (key : String)
    (r s : List (String × Value)) (hr : r ∈ M.rows) (hs : s ∈ A.rows)
    (heq : rowCell s key .null = rowCell r key .null) :
    r ++ ((A.cols.erase key).filter (fun c => !M.cols.contains c)).map
      (fun c => (c, rowCell s c .null)) ∈ (joinSpec M A key).rows := by
  rw [joinSpec]
  refine List.mem_flatMap.mpr ⟨r, hr, ?_⟩
  have hsm : s ∈ A.rows.filter (fun s => rowCell s key .null = rowCell r key .null) :=
    List.mem_filter.mpr ⟨hs, by simp [heq]⟩
  have hne : (A.rows.filter
      (fun s => rowCell s key .null = rowCell r key .null)).isEmpty = false :=
    List.isEmpty_eq_false.mpr (List.ne_nil_of_mem hsm)
  simp only [hne, Bool.false_eq_true, if_false]
  exact List.mem_map.mpr ⟨s, hsm, rfl⟩

theorem joinSpec_length (M A : Table) (key : String) :
    (joinSpec M A key).rows.length =
      (M.rows.map (fun r => max 1 ((A.rows.filter
        (fun s => rowCell s key .null = rowCell r key .null)).length))).sum := by
  rw [joinSpec, List.length_flatMap]
  congr 1
  refine List.map_congr_left (fun r _ => ?_)
  by_cases hms : (A.rows.filter
      (fun s => rowCell s key .null = rowCell r key .null)).isEmpty
  · have hnil := List.isEmpty_iff.mp hms
    simp only [Function.comp_apply, hms, if_true, hnil, List.length_singleton, List.length_nil]
    simp
  · rw [Bool.not_eq_true] at hms
    have hpos : 0 < (A.rows.filter
        (fun s => rowCell s key .null = rowCell r key .null)).length :=
      List.length_pos.mpr (List.isEmpty_eq_false.mp hms)
    simp only [Function.comp_apply, hms, Bool.false_eq_true, if_false, List.length_map]
    omega

theorem joinSpec_rows_shape (M A : Table) (key : String) :
    ∀ row ∈ (joinSpec M A key).rows,
      ∃ r, r ∈ M.rows ∧ ∃ addPart, row = r ++ addPart ∧
        addPart.map Prod.fst = (A.cols.erase key).filter (fun c => !M.cols.contains c) := by
  intro row hrow
  rw [joinSpec] at hrow
  obtain ⟨r, hr, hmem⟩ := List.mem_flatMap.mp hrow
  refine ⟨r, hr, ?_⟩
  by_cases hms : (A.rows.filter
      (fun s => rowCell s key .null = rowCell r key .null)).isEmpty
  · simp only [hms, if_true, List.mem_singleton] at hmem
    subst hmem
    exact ⟨_, rfl, map_fst_map_pair _ _⟩
  · rw [Bool.not_eq_true] at hms
    simp only [hms, Bool.false_eq_true, if_false, List.mem_map] at hmem
    obtain ⟨s, _, rfl⟩ := hmem
    exact ⟨_, rfl, map_fst_map_pair _ _⟩
/-- C4: `join_attributes` is a left (outer-preserving) join.  Every row of
`main` appears in the result: exactly once when at most one `addition` row
matches its (normalised) key — in particular the row count is the sum over
main rows of `max 1 (number of matches)` — and once per matching addition
row when several match (fan-out); a main row with zero matches appears with
`NaN` (null) in every addition-sourced column.  Rows are compared after the
normalisation the function itself performs (see C5/C10). -/
theorem claim_C4 (m a : Table) (key : String)
    (hmn : m.cols.Nodup) (han : a.cols.Nodup)
    (hma : ∀ c ∈ m.cols, endsAdd c = false)
    (haa : ∀ c ∈ a.cols, endsAdd c = false)
    (hkm : key ∈ m.cols) (hka : key ∈ a.cols)
    (halm : ∀ r ∈ m.rows, r.map Prod.fst = m.cols)
    (hala : ∀ r ∈ a.rows, r.map Prod.fst = a.cols) :
    ∃ j, join_attributes (some m) (some a) key = some j ∧
      j.rows.length = ((normTable m key).rows.map (fun r =>
        max 1 ((normTable a key).rows.filter
          (fun s => rowCell s key .null = rowCell r key .null)).length)).sum ∧
      (∀ r ∈ (normTable m key).rows,
        (normTable a key).rows.filter
          (fun s => rowCell s key .null = rowCell r key .null) = [] →
        r ++ ((a.cols.erase key).filter (fun c => !m.cols.contains c)).map
          (fun c => (c, Value.null)) ∈ j.rows) ∧
      (∀ r ∈ (normTable m key).rows, ∀ s ∈ (normTable a key).rows,
        rowCell s key .null = rowCell r key .null →
        r ++ ((a.cols.erase key).filter (fun c => !m.cols.contains c)).map
          (fun c => (c, rowCell s c .null)) ∈ j.rows) := by
  refine ⟨joinSpec (normTable m key) (normTable a key) key,
    join_attributes_eq m a key hmn han hma haa hkm hka halm hala,
    joinSpec_length _ _ _, ?_, ?_⟩
  · intro r hr hempty
    exact joinSpec_mem_unmatched _ _ key r hr hempty
  · intro r hr s hs heq
    exact joinSpec_mem_matched _ _ key r s hr hs heq

def tblC4m : Table := ⟨["k", "name"], [
  [("k", .str "1"), ("name", .str "m1")],
  [("k", .str "2"), ("name", .str "m2")],
  [("k", .str "3"), ("name", .str "m3")]]⟩

def tblC4a : Table := ⟨["k", "name", "extra"], [
  [("k", .str "2"), ("name", .str "a2"), ("extra", .str "e2")],
  [("k", .str "3"), ("name", .str "a3"), ("extra", .str "e3")],
  [("k", .str "4"), ("name", .str "a4"), ("extra", .str "e4")]]⟩

/-- Witness for C4 at the spec's example (main keyed 1,2,3; addition keyed
2,3,4). -/
theorem claim_C4_witness :
    (tblC4m.cols.Nodup ∧ tblC4a.cols.Nodup ∧
      (∀ c ∈ tblC4m.cols, endsAdd c = false) ∧
      (∀ c ∈ tblC4a.cols, endsAdd c = false) ∧
      "k" ∈ tblC4m.cols ∧ "k" ∈ tblC4a.cols ∧
      (∀ r ∈ tblC4m.rows, r.map Prod.fst = tblC4m.cols) ∧
      (∀ r ∈ tblC4a.rows, r.map Prod.fst = tblC4a.cols)) ∧
    (∃ j, join_attributes (some tblC4m) (some tblC4a) "k" = some j ∧
      j.rows.length = ((normTable tblC4m "k").rows.map (fun r =>
        max 1 ((normTable tblC4a "k").rows.filter
          (fun s => rowCell s "k" .null = rowCell r "k" .null)).length)).sum ∧
      (∀ r ∈ (normTable tblC4m "k").rows,
        (normTable tblC4a "k").rows.filter
          (fun s => rowCell s "k" .null = rowCell r "k" .null) = [] →
        r ++ ((tblC4a.cols.erase "k").filter (fun c => !tblC4m.cols.contains c)).map
          (fun c => (c, Value.null)) ∈ j.rows) ∧
      (∀ r ∈ (normTable tblC4m "k").rows, ∀ s ∈ (normTable tblC4a "k").rows,
        rowCell s "k" .null = rowCell r "k" .null →
        r ++ ((tblC4a.cols.erase "k").filter (fun c => !tblC4m.cols.contains c)).map
          (fun c => (c, rowCell s c .null)) ∈ j.rows)) := by
  refine ⟨⟨by decide, by decide, by decide, by decide, by decide, by decide,
    by decide, by decide⟩, ?_⟩
  exact claim_C4 tblC4m tblC4a "k" (by decide) (by decide) (by decide) (by decide)
    (by decide) (by decide) (by decide) (by decide)
theorem lookup_append_left (r x : List (String × Value)) (c : String)
    (h : c ∈ r.map Prod.fst) : (r ++ x).lookup c = r.lookup c := by
  induction r with
  | nil => cases h
  | cons p tl ih =>
    obtain ⟨k, v⟩ := p
    rw [List.map_cons] at h
    by_cases hc : c = k
    · subst hc
      rw [List.cons_append, lookup_cons_self, lookup_cons_self]
    · rw [List.cons_append, lookup_cons_ne _ _ _ _ hc, lookup_cons_ne _ _ _ _ hc]
      refine ih ?_
      rcases List.mem_cons.mp h with h1 | h1
      · exact absurd h1 hc
      · exact h1

theorem normTable_rows_aligned (t : Table) (key : String)
    (hal : ∀ r ∈ t.rows, r.map Prod.fst = t.cols) :
    ∀ r ∈ (normTable t key).rows, r.map Prod.fst = t.cols := by
  intro r hr
  rw [normTable] at hr
  obtain ⟨r0, hr0, rfl⟩ := List.mem_map.mp hr
  rw [map_fst_joinNorm]
  exact hal r0 hr0

/-- C6: for a non-key column name present in BOTH tables, the join result
has exactly one column of that name, `addition`'s same-named column is
dropped entirely (no `_add`-suffixed column survives), and in every output
row the value under that name is the one from the `main` row the output row
extends — never a value from `addition`. -/
theorem claim_C6 (m a : Table) (key : String)
    (hmn : m.cols.Nodup) (han : a.cols.Nodup)
    (hma : ∀ c ∈ m.cols, endsAdd c = false)
    (haa : ∀ c ∈ a.cols, endsAdd c = false)
    (hkm : key ∈ m.cols) (hka : key ∈ a.cols)
    (halm : ∀ r ∈ m.rows, r.map Prod.fst = m.cols)
    (hala : ∀ r ∈ a.rows, r.map Prod.fst = a.cols)
    (c : String) (hc : c ∈ m.cols) (hck : c ≠ key) (hca : c ∈ a.cols) :
    ∃ j, join_attributes (some m) (some a) key = some j ∧
      j.cols.count c = 1 ∧
      (c ++ "_add") ∉ j.cols ∧
      ∀ row ∈ j.rows, ∃ r, r ∈ (normTable m key).rows ∧ ∃ addPart,
        row = r ++ addPart ∧ (∀ p ∈ addPart, p.1 ≠ c) ∧
        rowCell row c .null = rowCell r c .null := by
  refine ⟨joinSpec (normTable m key) (normTable a key) key,
    join_attributes_eq m a key hmn han hma haa hkm hka halm hala, ?_, ?_, ?_⟩
  · show ((m.cols ++ _).count c) = 1
    rw [List.count_append, List.count_eq_one_of_mem hmn hc, List.count_eq_zero.mpr]
    · intro hmem
      have h2 := (List.mem_filter.mp hmem).2
      simp only [Bool.not_eq_eq_eq_not, Bool.not_true] at h2
      exact absurd (List.elem_eq_true_of_mem hc) (by simpa using h2)
  · show (c ++ "_add") ∉ m.cols ++ _
    intro hmem
    rcases List.mem_append.mp hmem with h | h
    · have := hma _ h
      rw [endsAdd_append] at this
      cases this
    · have := haa _ (List.mem_of_mem_erase (List.mem_filter.mp h).1)
      rw [endsAdd_append] at this
      cases this
  · intro row hrow
    obtain ⟨r, hr, addPart, rfl, hfst⟩ :=
      joinSpec_rows_shape (normTable m key) (normTable a key) key row hrow
    refine ⟨r, hr, addPart, rfl, ?_, ?_⟩
    · intro p hp heq
      have hpk : p.1 ∈ addPart.map Prod.fst := List.mem_map.mpr ⟨p, hp, rfl⟩
      rw [hfst] at hpk
      have h2 := (List.mem_filter.mp hpk).2
      rw [heq] at h2
      simp only [Bool.not_eq_eq_eq_not, Bool.not_true] at h2
      exact absurd (List.elem_eq_true_of_mem hc) (by simpa using h2)
    · rw [rowCell, rowCell, lookup_append_left]
      rw [normTable_rows_aligned m key halm r hr]
      exact hc

/-- Witness for C6 at a pair of tables sharing the non-key column
`"name"`. -/
theorem claim_C6_witness :
    (tblC4m.cols.Nodup ∧ tblC4a.cols.Nodup ∧
      (∀ c ∈ tblC4m.cols, endsAdd c = false) ∧
      (∀ c ∈ tblC4a.cols, endsAdd c = false) ∧
      "k" ∈ tblC4m.cols ∧ "k" ∈ tblC4a.cols ∧
      (∀ r ∈ tblC4m.rows, r.map Prod.fst = tblC4m.cols) ∧
      (∀ r ∈ tblC4a.rows, r.map Prod.fst = tblC4a.cols) ∧
      "name" ∈ tblC4m.cols ∧ "name" ≠ "k" ∧ "name" ∈ tblC4a.cols) ∧
    (∃ j, join_attributes (some tblC4m) (some tblC4a) "k" = some j ∧
      j.cols.count "name" = 1 ∧
      ("name" ++ "_add") ∉ j.cols ∧
      ∀ row ∈ j.rows, ∃ r, r ∈ (normTable tblC4m "k").rows ∧ ∃ addPart,
        row = r ++ addPart ∧ (∀ p ∈ addPart, p.1 ≠ "name") ∧
        rowCell row "name" .null = rowCell r "name" .null) := by
  refine ⟨⟨by decide, by decide, by decide, by decide, by decide, by decide,
    by decide, by decide, by decide, by decide, by decide⟩, ?_⟩
  exact claim_C6 tblC4m tblC4a "k" (by decide) (by decide) (by decide) (by decide)
    (by decide) (by decide) (by decide) (by decide) "name" (by decide) (by decide)
    (by decide)
theorem rowCell_joinNorm_key (key : String) (r : List (String × Value)) (v : Value)
    (h : r.lookup key = some v) :
    rowCell (r.map (joinNorm key)) key .null = .str (pyStrip (pyStr (cleanCell v))) := by
  induction r with
  | nil => cases h
  | cons p tl ih =>
    obtain ⟨k, w⟩ := p
    by_cases hk : k = key
    · subst hk
      rw [lookup_cons_self] at h
      injection h with h
      subst h
      rw [List.map_cons, joinNorm, if_pos rfl, rowCell, lookup_cons_self]
    · have hk2 : key ≠ k := fun he => hk he.symm
      rw [lookup_cons_ne _ _ _ _ hk2] at h
      rw [List.map_cons, joinNorm, if_neg hk, rowCell, lookup_cons_ne _ _ _ _ hk2]
      exact ih h

theorem exists_lookup_of_mem (r : List (String × Value)) (c : String)
    (h : c ∈ r.map Prod.fst) : ∃ v, r.lookup c = some v := by
  induction r with
  | nil => cases h
  | cons p tl ih =>
    obtain ⟨k, w⟩ := p
    rw [List.map_cons] at h
    by_cases hc : c = k
    · subst hc
      exact ⟨w, lookup_cons_self _ _ _⟩
    · rw [lookup_cons_ne _ _ _ _ hc]
      rcases List.mem_cons.mp h with h1 | h1
      · exact absurd h1 hc
      · exact ih h1

/-- C5 (as amended — see `cex_C5`: sentinel tokens are blanked first):
before matching, `join_attributes` normalises every key cell by first
replacing the blank sentinels (`''`, `'NaN'`, `'NaT'`, `'None'`, `'nan'`,
`'N/A'`, and true nulls) with the empty string and then coercing the value
to its Python string form and stripping surrounding whitespace.  For
non-sentinel values this is exactly string-coercion-plus-strip, so a main
row whose key is the integer 123 matches an addition row whose key is the
padded string " 123 ": both normalise to "123" and the combined row is in
the output. -/
theorem claim_C5 (m a : Table) (key : String)
    (hmn : m.cols.Nodup) (han : a.cols.Nodup)
    (hma : ∀ c ∈ m.cols, endsAdd c = false)
    (haa : ∀ c ∈ a.cols, endsAdd c = false)
    (hkm : key ∈ m.cols) (hka : key ∈ a.cols)
    (halm : ∀ r ∈ m.rows, r.map Prod.fst = m.cols)
    (hala : ∀ r ∈ a.rows, r.map Prod.fst = a.cols)
    (r s : List (String × Value)) (hr : r ∈ m.rows) (hs : s ∈ a.rows)
    (v w : Value) (hv : r.lookup key = some v) (hw : s.lookup key = some w)
    (hvs : ¬(v = .null ∨ v ∈ sentinels)) (hws : ¬(w = .null ∨ w ∈ sentinels))
    (heq : pyStrip (pyStr v) = pyStrip (pyStr w)) :
    ∃ j, join_attributes (some m) (some a) key = some j ∧
      rowCell (r.map (joinNorm key)) key .null = .str (pyStrip (pyStr v)) ∧
      rowCell (s.map (joinNorm key)) key .null = .str (pyStrip (pyStr w)) ∧
      (r.map (joinNorm key)) ++ ((a.cols.erase key).filter
        (fun c => !m.cols.contains c)).map
          (fun c => (c, rowCell (s.map (joinNorm key)) c .null)) ∈ j.rows := by
  have hrn : rowCell (r.map (joinNorm key)) key .null = .str (pyStrip (pyStr v)) := by
    rw [rowCell_joinNorm_key key r v hv, cleanCell, if_neg hvs]
    rfl
  have hsn : rowCell (s.map (joinNorm key)) key .null = .str (pyStrip (pyStr w)) := by
    rw [rowCell_joinNorm_key key s w hw, cleanCell, if_neg hws]
    rfl
  refine ⟨joinSpec (normTable m key) (normTable a key) key,
    join_attributes_eq m a key hmn han hma haa hkm hka halm hala, hrn, hsn, ?_⟩
  refine joinSpec_mem_matched (normTable m key) (normTable a key) key
    (r.map (joinNorm key)) (s.map (joinNorm key))
    (List.mem_map.mpr ⟨r, hr, rfl⟩) (List.mem_map.mpr ⟨s, hs, rfl⟩) ?_
  rw [hrn, hsn, heq]

def tblC5m : Table := ⟨["k"], [[("k", .int 123)]]⟩

def tblC5a : Table := ⟨["k", "v"], [[("k", .str " 123 "), ("v", .str "x")]]⟩

/-- Witness for C5: the integer key `123` matches the padded string key
`" 123 "`. -/
theorem claim_C5_witness :
    (tblC5m.cols.Nodup ∧ tblC5a.cols.Nodup ∧
      (∀ c ∈ tblC5m.cols, endsAdd c = false) ∧
      (∀ c ∈ tblC5a.cols, endsAdd c = false) ∧
      "k" ∈ tblC5m.cols ∧ "k" ∈ tblC5a.cols ∧
      (∀ r ∈ tblC5m.rows, r.map Prod.fst = tblC5m.cols) ∧
      (∀ r ∈ tblC5a.rows, r.map Prod.fst = tblC5a.cols) ∧
      [("k", Value.int 123)] ∈ tblC5m.rows ∧
      [("k", Value.str " 123 "), ("v", Value.str "x")] ∈ tblC5a.rows ∧
      pyStrip (pyStr (.int 123)) = pyStrip (pyStr (.str " 123 "))) ∧
    (∃ j, join_attributes (some tblC5m) (some tblC5a) "k" = some j ∧
      rowCell ([("k", Value.int 123)].map (joinNorm "k")) "k" .null =
        .str (pyStrip (pyStr (.int 123))) ∧
      rowCell ([("k", Value.str " 123 "), ("v", Value.str "x")].map (joinNorm "k"))
          "k" .null = .str (pyStrip (pyStr (.str " 123 "))) ∧
      ([("k", Value.int 123)].map (joinNorm "k")) ++ ((tblC5a.cols.erase "k").filter
        (fun c => !tblC5m.cols.contains c)).map
          (fun c => (c, rowCell ([("k", Value.str " 123 "), ("v", Value.str "x")].map
            (joinNorm "k")) c .null)) ∈ j.rows) := by
  refine ⟨⟨by decide, by decide, by decide, by decide, by decide, by decide, by decide,
    by decide, by decide, by decide, by decide⟩, ?_⟩
  exact claim_C5 tblC5m tblC5a "k" (by decide) (by decide) (by decide) (by decide)
    (by decide) (by decide) (by decide) (by decide)
    [("k", Value.int 123)] [("k", Value.str " 123 "), ("v", Value.str "x")]
    (by decide) (by decide) (.int 123) (.str " 123 ") (by decide) (by decide)
    (by decide) (by decide) (by decide)

/-- C5 counterexample: the claim says every key value is coerced to its
string form and stripped, but the cleaning step first blanks the sentinel
tokens: a main key `"None"` is normalised to `""` (NOT to `"None"`) and
therefore matches an addition row whose key is the empty string — the
addition cell `"x"` is attached, which the claimed normalisation would
never produce. -/
theorem cex_C5 :
    join_attributes (some ⟨["k"], [[("k", .str "None")]]⟩)
        (some ⟨["k", "v"], [[("k", .str ""), ("v", .str "x")]]⟩) "k" =
      some ⟨["k", "v"], [[("k", .str ""), ("v", .str "x")]]⟩ ∧
    Value.str "" ≠ .str (pyStrip (pyStr (.str "None"))) := by
  constructor
  · decide
  · decide
/-- C10: before joining, `join_attributes` cleans EVERY cell of both input
tables, not only the key column: each pandas stage composed
(`replace` sentinels with null, `fillna('')`, `astype(str)`) amounts to
mapping every cell through `cleanCell` — any cell equal to one of `''`,
`'NaN'`, `'NaT'`, `'None'`, `'nan'`, `'N/A'` (or a true null) becomes the
empty string and every other cell its Python string form, so that every
cell is a string afterwards.  Consequently two rows whose key cells each
hold ANY of the sentinel tokens both normalise to the empty string and
match each other in the join. -/
theorem claim_C10 :
    (∀ t : Table, clean_dataframe t =
      ⟨t.cols, t.rows.map (List.map (fun p => (p.1, cleanCell p.2)))⟩) ∧
    (∀ v, v ∈ sentinels ∨ v = .null → cleanCell v = .str "") ∧
    (∀ v, ∃ s, cleanCell v = .str s) ∧
    (∀ (m a : Table) (key : String),
      m.cols.Nodup → a.cols.Nodup →
      (∀ c ∈ m.cols, endsAdd c = false) → (∀ c ∈ a.cols, endsAdd c = false) →
      key ∈ m.cols → key ∈ a.cols →
      (∀ r ∈ m.rows, r.map Prod.fst = m.cols) →
      (∀ r ∈ a.rows, r.map Prod.fst = a.cols) →
      ∀ r ∈ m.rows, ∀ s ∈ a.rows, ∀ v w,
        r.lookup key = some v → s.lookup key = some w →
        v ∈ sentinels → w ∈ sentinels →
        ∃ j, join_attributes (some m) (some a) key = some j ∧
          rowCell (r.map (joinNorm key)) key .null = .str "" ∧
          rowCell (s.map (joinNorm key)) key .null = .str "" ∧
          (r.map (joinNorm key)) ++ ((a.cols.erase key).filter
            (fun c => !m.cols.contains c)).map
              (fun c => (c, rowCell (s.map (joinNorm key)) c .null)) ∈ j.rows) := by
  refine ⟨clean_dataframe_eq, ?_, ?_, ?_⟩
  · intro v hv
    rw [cleanCell, if_pos (Or.symm hv)]
  · intro v
    rw [cleanCell]
    by_cases h : v = .null ∨ v ∈ sentinels
    · rw [if_pos h]; exact ⟨"", rfl⟩
    · rw [if_neg h]; exact ⟨pyStr v, rfl⟩
  · intro m a key hmn han hma haa hkm hka halm hala r hr s hs v w hv hw hvs hws
    have hrn : rowCell (r.map (joinNorm key)) key .null = .str "" := by
      rw [rowCell_joinNorm_key key r v hv, cleanCell, if_pos (Or.inr hvs)]
      rfl
    have hsn : rowCell (s.map (joinNorm key)) key .null = .str "" := by
      rw [rowCell_joinNorm_key key s w hw, cleanCell, if_pos (Or.inr hws)]
      rfl
    refine ⟨joinSpec (normTable m key) (normTable a key) key,
      join_attributes_eq m a key hmn han hma haa hkm hka halm hala, hrn, hsn, ?_⟩
    refine joinSpec_mem_matched (normTable m key) (normTable a key) key
      (r.map (joinNorm key)) (s.map (joinNorm key))
      (List.mem_map.mpr ⟨r, hr, rfl⟩) (List.mem_map.mpr ⟨s, hs, rfl⟩) ?_
    rw [hrn, hsn]

def tblC10m : Table := ⟨["k"], [[("k", .str "NaN")]]⟩

def tblC10a : Table := ⟨["k", "w"], [[("k", .str "N/A"), ("w", .str "y")]]⟩

/-- Witness for C10: a `"NaN"` key matches an `"N/A"` key (both blank). -/
theorem claim_C10_witness :
    (tblC10m.cols.Nodup ∧ tblC10a.cols.Nodup ∧
      (∀ c ∈ tblC10m.cols, endsAdd c = false) ∧
      (∀ c ∈ tblC10a.cols, endsAdd c = false) ∧
      "k" ∈ tblC10m.cols ∧ "k" ∈ tblC10a.cols ∧
      (∀ r ∈ tblC10m.rows, r.map Prod.fst = tblC10m.cols) ∧
      (∀ r ∈ tblC10a.rows, r.map Prod.fst = tblC10a.cols) ∧
      Value.str "NaN" ∈ sentinels ∧ Value.str "N/A" ∈ sentinels) ∧
    (∃ j, join_attributes (some tblC10m) (some tblC10a) "k" = some j ∧
      rowCell ([("k", Value.str "NaN")].map (joinNorm "k")) "k" .null = .str "" ∧
      rowCell ([("k", Value.str "N/A"), ("w", Value.str "y")].map (joinNorm "k"))
        "k" .null = .str "" ∧
      ([("k", Value.str "NaN")].map (joinNorm "k")) ++ ((tblC10a.cols.erase "k").filter
        (fun c => !tblC10m.cols.contains c)).map
          (fun c => (c, rowCell ([("k", Value.str "N/A"), ("w", Value.str "y")].map
            (joinNorm "k")) c .null)) ∈ j.rows) := by
  refine ⟨⟨by decide, by decide, by decide, by decide, by decide, by decide, by decide,
    by decide, by decide, by decide⟩, ?_⟩
  exact claim_C10.2.2.2 tblC10m tblC10a "k" (by decide) (by decide) (by decide)
    (by decide) (by decide) (by decide) (by decide) (by decide)
    [("k", Value.str "NaN")] (by decide)
    [("k", Value.str "N/A"), ("w", Value.str "y")] (by decide)
    (.str "NaN") (.str "N/A") (by decide) (by decide) (by decide) (by decide)
/-! ## Lemmas: `loads (dumps v) = v` — digits and hex -/

mutual

/-- Fuel sufficient for `parseV` to parse this value. -/
def weightV : Value → Nat
  | .null => 1
  | .bool _ => 1
  | .int _ => 1
  | .str _ => 1
  | .arr xs => 1 + weightItems xs
  | .obj fs => 1 + weightFields fs

def weightItems : VList → Nat
  | .nil => 1
  | .cons v .nil => 1 + weightV v
  | .cons v tl => 1 + max (weightV v) (weightItems tl)

def weightFields : FList → Nat
  | .nil => 1
  | .cons _ v .nil => 1 + weightV v
  | .cons _ v tl => 1 + max (weightV v) (weightFields tl)

end

theorem weightV_pos (v : Value) : 1 ≤ weightV v := by
  cases v <;> simp [weightV]

theorem weightItems_pos (xs : VList) : 1 ≤ weightItems xs := by
  cases xs with
  | nil => simp [weightItems]
  | cons v tl => cases tl <;> simp [weightItems]

theorem weightFields_pos (fs : FList) : 1 ≤ weightFields fs := by
  cases fs with
  | nil => simp [weightFields]
  | cons k v tl => cases tl <;> simp [weightFields]

/-- The input remaining after a serialized value never begins with a digit
(else the number parser would run past the value boundary). -/
def noDigit (cs : List Char) : Prop :=
  match cs with
  | [] => True
  | c :: _ => c.isDigit = false

theorem isDigit_iff (c : Char) : c.isDigit = true ↔ 48 ≤ c.toNat ∧ c.toNat ≤ 57 := by
  rw [Char.isDigit, Bool.and_eq_true, decide_eq_true_eq, decide_eq_true_eq]
  exact Iff.rfl

theorem isDigit_ofNat_digit (n : Nat) (h : n < 10) : (Char.ofNat (48 + n)).isDigit = true := by
  rw [isDigit_iff, toNat_ofNat_small _ (by omega)]
  omega

theorem natToDecAux_digits (f : Nat) : ∀ n, ∀ c ∈ natToDecAux f n, c.isDigit = true := by
  induction f with
  | zero => intro n c hc; cases hc
  | succ f ih =>
    intro n c hc
    rw [natToDecAux] at hc
    by_cases h10 : n < 10
    · rw [if_pos h10, List.mem_singleton] at hc
      subst hc
      exact isDigit_ofNat_digit n h10
    · rw [if_neg h10, List.mem_append] at hc
      rcases hc with h | h
      · exact ih _ c h
      · rw [List.mem_singleton] at h
        subst h
        exact isDigit_ofNat_digit _ (Nat.mod_lt n (by omega))

theorem natToDecAux_ne_nil (f n : Nat) : natToDecAux (f + 1) n ≠ [] := by
  rw [natToDecAux]
  by_cases h10 : n < 10
  · rw [if_pos h10]
    exact List.cons_ne_nil _ _
  · rw [if_neg h10]
    simp

theorem takeWhile_digits (ds : List Char) (rest : List Char)
    (hds : ∀ c ∈ ds, c.isDigit = true) (hrest : noDigit rest) :
    (ds ++ rest).takeWhile Char.isDigit = ds ∧
      (ds ++ rest).dropWhile Char.isDigit = rest := by
  induction ds with
  | nil =>
    rcases rest with _ | ⟨c, tl⟩
    · exact ⟨rfl, rfl⟩
    · rw [noDigit] at hrest
      constructor
      · rw [List.nil_append, List.takeWhile_cons, hrest]
        rfl
      · rw [List.nil_append, List.dropWhile_cons, hrest]
        rfl
  | cons c tl ih =>
    have hc := hds c (List.mem_cons_self c tl)
    have htl := ih (fun c1 h1 => hds c1 (List.mem_cons_of_mem _ h1))
    constructor
    · rw [List.cons_append, List.takeWhile_cons, hc]
      simp only [if_true]
      rw [htl.1]
    · rw [List.cons_append, List.dropWhile_cons, hc]
      simp only [if_true]
      rw [htl.2]

theorem parseDigits_natToDec (n : Nat) (rest : List Char) (hrest : noDigit rest) :
    parseDigits ((natToDec n).data ++ rest) = some (n, rest) := by
  obtain ⟨h1, h2⟩ := takeWhile_digits (natToDec n).data rest
    (natToDecAux_digits _ _) hrest
  rw [parseDigits]
  simp only [h1, h2]
  rw [if_neg (by simpa using natToDecAux_ne_nil n n)]
  rw [decVal_natToDec]

theorem fromHexDig_hexDig (d : Nat) (h : d < 16) : fromHexDig (hexDig d) = some d := by
  rw [hexDig, fromHexDig]
  by_cases h10 : d < 10
  · rw [if_pos h10, toNat_ofNat_small _ (by omega)]
    rw [if_pos (by omega)]
    congr 1
    omega
  · rw [if_neg h10, toNat_ofNat_small _ (by omega)]
    rw [if_neg (by omega), if_pos (by omega)]
    congr 1
    omega

theorem hex4Val_hex4 (n : Nat) (h : n < 65536) :
    (match hex4 n with
      | [a, b, c, d] => hex4Val a b c d
      | _ => none) = some n := by
  rw [hex4]
  show hex4Val _ _ _ _ = some n
  rw [hex4Val, fromHexDig_hexDig _ (by omega), fromHexDig_hexDig _ (by omega),
    fromHexDig_hexDig _ (by omega), fromHexDig_hexDig _ (by omega)]
  show some _ = some n
  congr 1
  omega
/-! ## Step lemmas for the parser -/

theorem parseStrBody_quote (f : Nat) (rest : List Char) :
    parseStrBody (f+1) ('"' :: rest) = some ([], rest) := by
  rw [parseStrBody.eq_def]
  rfl

theorem parseStrBody_raw (f : Nat) (c : Char) (rest : List Char) (h1 : ¬ c = '"')
    (h2 : ¬ c = '\\') (h3 : 0x20 ≤ c.toNat) :
    parseStrBody (f+1) (c :: rest) = consFst c (parseStrBody f rest) := by
  rw [parseStrBody.eq_def]
  show (if c = '"' then _ else _) = _
  rw [if_neg h1, if_neg h2, if_pos h3]

theorem parseStrBody_esc (f : Nat) (e : Char) (rest : List Char) (he : ¬ e = 'u') :
    parseStrBody (f+1) ('\\' :: e :: rest) =
      (match shorthandEsc e with
      | some c1 => consFst c1 (parseStrBody f rest)
      | none => none) := by
  rw [parseStrBody.eq_def]
  show (if ('\\' : Char) = '"' then _ else _) = _
  rw [if_neg (by decide), if_pos rfl]
  show (if e = 'u' then _ else _) = _
  rw [if_neg he]

theorem parseStrBody_u (f : Nat) (rest : List Char) :
    parseStrBody (f+1) ('\\' :: 'u' :: rest) =
      (match parseUEsc rest with
      | some (ch, rest3) => consFst ch (parseStrBody f rest3)
      | none => none) := by
  rw [parseStrBody.eq_def]
  show (if ('\\' : Char) = '"' then _ else _) = _
  rw [if_neg (by decide), if_pos rfl]
  show (if ('u' : Char) = 'u' then _ else _) = _
  rw [if_pos rfl]
theorem hex4Val_hexDigs (n : Nat) (h : n < 65536) :
    hex4Val (hexDig (n / 4096 % 16)) (hexDig (n / 256 % 16))
      (hexDig (n / 16 % 16)) (hexDig (n % 16)) = some n := by
  rw [hex4Val, fromHexDig_hexDig _ (by omega), fromHexDig_hexDig _ (by omega),
    fromHexDig_hexDig _ (by omega), fromHexDig_hexDig _ (by omega)]
  show some _ = some n
  congr 1
  omega

theorem char_valid_ranges (c : Char) :
    c.toNat < 0xd800 ∨ (0xe000 ≤ c.toNat ∧ c.toNat < 0x110000) := by
  have h := c.valid
  rw [UInt32.isValidChar] at h
  rcases h with h | h
  · exact Or.inl (by exact_mod_cast h)
  · exact Or.inr ⟨by exact_mod_cast h.1, by exact_mod_cast h.2⟩

theorem parseLowSurr_step (h : Nat) (e f g i : Char) (rest : List Char) (l : Nat)
    (hv : hex4Val e f g i = some l) (hl : 0xdc00 ≤ l ∧ l < 0xe000) :
    parseLowSurr h ('\\' :: 'u' :: e :: f :: g :: i :: rest) =
      some (Char.ofNat (0x10000 + (h - 0xd800) * 1024 + (l - 0xdc00)), rest) := by
  rw [parseLowSurr.eq_def]
  show (if ('\\' : Char) = '\\' ∧ ('u' : Char) = 'u' then _ else _) = _
  rw [if_pos ⟨rfl, rfl⟩, hv]
  show (if 0xdc00 ≤ l ∧ l < 0xe000 then _ else _) = _
  rw [if_pos hl]

theorem parseUEsc_step (a b c d : Char) (rest : List Char) (n : Nat)
    (hv : hex4Val a b c d = some n) :
    parseUEsc (a :: b :: c :: d :: rest) =
      (if n < 0xd800 ∨ 0xe000 ≤ n then some (Char.ofNat n, rest)
      else if n < 0xdc00 then parseLowSurr n rest
      else none) := by
  simp only [parseUEsc]
  rw [hv]

theorem parseUEsc_hex4 (n : Nat) (hn : n < 0x10000) (hval : n < 0xd800 ∨ 0xe000 ≤ n)
    (X : List Char) : parseUEsc (hex4 n ++ X) = some (Char.ofNat n, X) := by
  show parseUEsc (hexDig _ :: hexDig _ :: hexDig _ :: hexDig _ :: X) = _
  rw [parseUEsc_step _ _ _ _ _ _ (hex4Val_hexDigs n hn), if_pos hval]

theorem parseUEsc_surr (c : Char) (hc : 0x10000 ≤ c.toNat) (hhi : c.toNat < 0x110000)
    (X : List Char) :
    parseUEsc (hex4 (0xd800 + (c.toNat - 0x10000) / 1024) ++
      ('\\' :: 'u' :: hex4 (0xdc00 + (c.toNat - 0x10000) % 1024) ++ X)) = some (c, X) := by
  show parseUEsc (hexDig _ :: hexDig _ :: hexDig _ :: hexDig _ ::
    ('\\' :: 'u' :: hexDig _ :: hexDig _ :: hexDig _ :: hexDig _ :: X)) = _
  rw [parseUEsc_step _ _ _ _ _ _
    (hex4Val_hexDigs _ (by omega : 0xd800 + (c.toNat - 0x10000) / 1024 < 65536))]
  have hq : (c.toNat - 0x10000) / 1024 < 1024 := by omega
  rw [if_neg (by omega), if_pos (by omega)]
  rw [parseLowSurr_step _ _ _ _ _ _ _
    (hex4Val_hexDigs _ (by omega : 0xdc00 + (c.toNat - 0x10000) % 1024 < 65536))
    ⟨by omega, by omega⟩]
  have harith : 0x10000 + (0xd800 + (c.toNat - 0x10000) / 1024 - 0xd800) * 1024 +
      (0xdc00 + (c.toNat - 0x10000) % 1024 - 0xdc00) = c.toNat := by omega
  rw [harith, Char.ofNat_toNat]

theorem escChar_length_pos (c : Char) : 1 ≤ (escChar c).length := by
  rw [escChar]
  repeat' split
  all_goals simp [List.length_append]

/-- Round trip for string bodies: the parser undoes `escChar`, given fuel
exceeding the escaped length. -/
theorem parseStrBody_escape (cs : List Char) : ∀ (f : Nat) (rest : List Char),
    (cs.flatMap escChar).length < f →
    parseStrBody f ((cs.flatMap escChar) ++ '"' :: rest) = some (cs, rest) := by
  induction cs with
  | nil =>
    intro f rest hf
    obtain ⟨f1, rfl⟩ : ∃ f1, f = f1 + 1 := ⟨f - 1, by omega⟩
    simpa using parseStrBody_quote f1 rest
  | cons c tl ih =>
    intro f rest hf
    rw [List.flatMap_cons, List.length_append] at hf
    have hcl : 1 ≤ (escChar c).length := escChar_length_pos c
    obtain ⟨f1, rfl⟩ : ∃ f1, f = f1 + 1 := ⟨f - 1, by omega⟩
    have htail : (tl.flatMap escChar).length < f1 := by omega
    rw [List.flatMap_cons, List.append_assoc]
    by_cases h1 : c = '"'
    · subst h1
      rw [show escChar '"' = ['\\', '"'] from by decide, List.cons_append,
        List.singleton_append, parseStrBody_esc f1 '"' _ (by decide),
        show shorthandEsc '"' = some '"' from by decide, ih f1 rest htail]
      rfl
    · by_cases h2 : c = '\\'
      · subst h2
        rw [show escChar '\\' = ['\\', '\\'] from by decide, List.cons_append,
          List.singleton_append, parseStrBody_esc f1 '\\' _ (by decide),
          show shorthandEsc '\\' = some '\\' from by decide, ih f1 rest htail]
        rfl
      · by_cases h3 : c = '\n'
        · subst h3
          rw [show escChar '\n' = ['\\', 'n'] from by decide, List.cons_append,
            List.singleton_append, parseStrBody_esc f1 'n' _ (by decide),
            show shorthandEsc 'n' = some '\n' from by decide, ih f1 rest htail]
          rfl
        · by_cases h4 : c = '\t'
          · subst h4
            rw [show escChar '\t' = ['\\', 't'] from by decide, List.cons_append,
              List.singleton_append, parseStrBody_esc f1 't' _ (by decide),
              show shorthandEsc 't' = some '\t' from by decide, ih f1 rest htail]
            rfl
          · by_cases h5 : c = '\r'
            · subst h5
              rw [show escChar '\r' = ['\\', 'r'] from by decide, List.cons_append,
                List.singleton_append, parseStrBody_esc f1 'r' _ (by decide),
                show shorthandEsc 'r' = some '\r' from by decide, ih f1 rest htail]
              rfl
            · by_cases h6 : c = '\x08'
              · subst h6
                rw [show escChar '\x08' = ['\\', 'b'] from by decide, List.cons_append,
                  List.singleton_append, parseStrBody_esc f1 'b' _ (by decide),
                  show shorthandEsc 'b' = some '\x08' from by decide, ih f1 rest htail]
                rfl
              · by_cases h7 : c = '\x0c'
                · subst h7
                  rw [show escChar '\x0c' = ['\\', 'f'] from by decide, List.cons_append,
                    List.singleton_append, parseStrBody_esc f1 'f' _ (by decide),
                    show shorthandEsc 'f' = some '\x0c' from by decide, ih f1 rest htail]
                  rfl
                · rw [escChar, if_neg h1, if_neg h2, if_neg h3, if_neg h4, if_neg h5,
                    if_neg h6, if_neg h7]
                  by_cases h8 : 0x20 ≤ c.toNat ∧ c.toNat ≤ 0x7e
                  · rw [if_pos h8, List.singleton_append,
                      parseStrBody_raw f1 c _ h1 h2 h8.1, ih f1 rest htail]
                    rfl
                  · rw [if_neg h8]
                    by_cases h9 : c.toNat < 0x10000
                    · rw [if_pos h9]
                      have hv : c.toNat < 0xd800 ∨ 0xe000 ≤ c.toNat := by
                        rcases char_valid_ranges c with h | h
                        · exact Or.inl h
                        · exact Or.inr h.1
                      rw [List.cons_append, List.cons_append, parseStrBody_u,
                        parseUEsc_hex4 c.toNat h9 hv]
                      show consFst (Char.ofNat c.toNat)
                        (parseStrBody f1 (tl.flatMap escChar ++ ('\"' :: rest))) = _
                      rw [ih f1 rest htail, Char.ofNat_toNat]
                      rfl
                    · rw [if_neg h9]
                      have hval := char_valid_ranges c
                      have hlow : 0x10000 ≤ c.toNat := by omega
                      have hhi : c.toNat < 0x110000 := by
                        rcases hval with h | h
                        · omega
                        · exact h.2
                      rw [List.append_assoc, List.cons_append, List.cons_append,
                        parseStrBody_u, parseUEsc_surr c hlow hhi]
                      show consFst c
                        (parseStrBody f1 (tl.flatMap escChar ++ ('\"' :: rest))) = _
                      rw [ih f1 rest htail]
                      rfl
/-! ## Lemmas: `loads (dumps v) = v` — dispatch and shapes -/

theorem skipWs_cons_false (c : Char) (l : List Char) (h : jsonWs c = false) :
    skipWs (c :: l) = c :: l := by
  rw [skipWs, List.dropWhile_cons, h]
  rfl

theorem skipWs_cons_true (c : Char) (l : List Char) (h : jsonWs c = true) :
    skipWs (c :: l) = skipWs l := by
  rw [skipWs, List.dropWhile_cons, h]
  rfl

theorem jsonWs_eq_false (c : Char) (h1 : ¬c = ' ') (h2 : ¬c = '\t') (h3 : ¬c = '\n')
    (h4 : ¬c = '\r') : jsonWs c = false := by
  rw [jsonWs]
  simp [h1, h2, h3, h4]

theorem digit_facts (d : Char) (hd : d.isDigit = true) :
    ¬d = 'n' ∧ ¬d = 't' ∧ ¬d = 'f' ∧ ¬d = '"' ∧ ¬d = '-' ∧ ¬d = '[' ∧ ¬d = '\x7b' ∧
      jsonWs d = false ∧ ¬d = ']' ∧ ¬d = '\x7d' ∧ ¬d = ',' := by
  have hb := (isDigit_iff d).1 hd
  refine ⟨?_, ?_, ?_, ?_, ?_, ?_, ?_, ?_, ?_, ?_, ?_⟩
  · intro he; subst he; exact absurd hb (by decide)
  · intro he; subst he; exact absurd hb (by decide)
  · intro he; subst he; exact absurd hb (by decide)
  · intro he; subst he; exact absurd hb (by decide)
  · intro he; subst he; exact absurd hb (by decide)
  · intro he; subst he; exact absurd hb (by decide)
  · intro he; subst he; exact absurd hb (by decide)
  · refine jsonWs_eq_false d ?_ ?_ ?_ ?_ <;>
      (intro he; subst he; exact absurd hb (by decide))
  · intro he; subst he; exact absurd hb (by decide)
  · intro he; subst he; exact absurd hb (by decide)
  · intro he; subst he; exact absurd hb (by decide)

theorem take_ne_null (c : Char) (r : List Char) (h : ¬c = 'n') :
    ¬((c :: r).take 4 = "null".data) := by
  intro he
  rw [List.take_succ_cons, show ("null".data : List Char) = 'n' :: "ull".data from rfl] at he
  injection he with h1 _
  exact h h1

theorem take_ne_true (c : Char) (r : List Char) (h : ¬c = 't') :
    ¬((c :: r).take 4 = "true".data) := by
  intro he
  rw [List.take_succ_cons, show ("true".data : List Char) = 't' :: "rue".data from rfl] at he
  injection he with h1 _
  exact h h1

theorem take_ne_false (c : Char) (r : List Char) (h : ¬c = 'f') :
    ¬((c :: r).take 5 = "false".data) := by
  intro he
  rw [List.take_succ_cons, show ("false".data : List Char) = 'f' :: "alse".data from rfl] at he
  injection he with h1 _
  exact h h1

theorem parseV_null (f : Nat) (rest : List Char) :
    parseV (f+1) ((dumps .null).data ++ rest) = some (.null, rest) := by
  show parseV (f+1) ('n' :: 'u' :: 'l' :: 'l' :: rest) = _
  rw [parseV.eq_def]
  show (if ('n' :: 'u' :: 'l' :: 'l' :: rest).take 4 = "null".data then _ else _) = _
  rw [if_pos (show List.take 4 ('n' :: 'u' :: 'l' :: 'l' :: rest) = "null".data from rfl)]
  rfl

theorem parseV_true (f : Nat) (rest : List Char) :
    parseV (f+1) ((dumps (.bool true)).data ++ rest) = some (.bool true, rest) := by
  show parseV (f+1) ('t' :: 'r' :: 'u' :: 'e' :: rest) = _
  rw [parseV.eq_def]
  show (if ('t' :: 'r' :: 'u' :: 'e' :: rest).take 4 = "null".data then _ else _) = _
  rw [if_neg (take_ne_null 't' _ (by decide)),
    if_pos (show List.take 4 ('t' :: 'r' :: 'u' :: 'e' :: rest) = "true".data from rfl)]
  rfl

theorem parseV_false (f : Nat) (rest : List Char) :
    parseV (f+1) ((dumps (.bool false)).data ++ rest) = some (.bool false, rest) := by
  show parseV (f+1) ('f' :: 'a' :: 'l' :: 's' :: 'e' :: rest) = _
  rw [parseV.eq_def]
  show (if ('f' :: 'a' :: 'l' :: 's' :: 'e' :: rest).take 4 = "null".data then _ else _) = _
  rw [if_neg (take_ne_null 'f' _ (by decide)), if_neg (take_ne_true 'f' _ (by decide)),
    if_pos (show List.take 5 ('f' :: 'a' :: 'l' :: 's' :: 'e' :: rest) = "false".data from rfl)]
  rfl

theorem parseV_cons (f : Nat) (c : Char) (r : List Char)
    (hn : ¬c = 'n') (ht : ¬c = 't') (hf : ¬c = 'f') :
    parseV (f+1) (c :: r) =
      (if c = '"' then strRes (parseStrBody (r.length + 1) r)
      else if c = '-' then intRes true (parseDigits r)
      else if c = '[' then
        (if (skipWs r).head? = some ']' then some (.arr .nil, (skipWs r).tail)
         else arrRes (parseItems f (skipWs r)))
      else if c = '\x7b' then
        (if (skipWs r).head? = some '\x7d' then some (.obj .nil, (skipWs r).tail)
         else objRes (parseFields f (skipWs r)))
      else if c.isDigit then intRes false (parseDigits (c :: r))
      else none) := by
  rw [parseV.eq_def]
  show (if (c :: r).take 4 = "null".data then _ else _) = _
  rw [if_neg (take_ne_null c r hn), if_neg (take_ne_true c r ht),
    if_neg (take_ne_false c r hf)]

theorem parseItems_step (f : Nat) (cs : List Char) :
    parseItems (f+1) cs =
      (match parseV f cs with
      | none => none
      | some (v, r) =>
        if (skipWs r).head? = some ']' then some (.cons v .nil, (skipWs r).tail)
        else if (skipWs r).head? = some ',' then
          consItem v (parseItems f (skipWs (skipWs r).tail))
        else none) := by
  rw [parseItems.eq_def]

theorem parseFields_step (f : Nat) (cs : List Char) :
    parseFields (f+1) cs =
      (if cs.head? = some '"' then
        match parseStrBody (cs.tail.length + 1) cs.tail with
        | none => none
        | some (kcs, r2) =>
          if (skipWs r2).head? = some ':' then
            match parseV f (skipWs (skipWs r2).tail) with
            | none => none
            | some (v, r4) =>
              if (skipWs r4).head? = some '\x7d' then
                some (.cons ⟨kcs⟩ v .nil, (skipWs r4).tail)
              else if (skipWs r4).head? = some ',' then
                consField ⟨kcs⟩ v (parseFields f (skipWs (skipWs r4).tail))
              else none
          else none
      else none) := by
  rw [parseFields.eq_def]

/-! Shapes of serialized data. -/

theorem dumps_str_data (s : String) (rest : List Char) :
    (dumps (.str s)).data ++ rest = '"' :: (s.data.flatMap escChar ++ ('"' :: rest)) := by
  show ("\"" ++ ⟨s.data.flatMap escChar⟩ ++ "\"").data ++ rest = _
  rw [String.data_append, String.data_append, List.append_assoc, List.append_assoc]
  rfl

theorem dumps_arr_data (xs : VList) (rest : List Char) :
    (dumps (.arr xs)).data ++ rest = '[' :: ((dumpsItems xs).data ++ (']' :: rest)) := by
  show ("[" ++ dumpsItems xs ++ "]").data ++ rest = _
  rw [String.data_append, String.data_append, List.append_assoc, List.append_assoc]
  rfl

theorem dumps_obj_data (fs : FList) (rest : List Char) :
    (dumps (.obj fs)).data ++ rest = '\x7b' :: ((dumpsFields fs).data ++ ('\x7d' :: rest)) := by
  show ("\x7b" ++ dumpsFields fs ++ "\x7d").data ++ rest = _
  rw [String.data_append, String.data_append, List.append_assoc, List.append_assoc]
  rfl

theorem dumps_int_neg_data (n : Int) (hneg : n < 0) (rest : List Char) :
    (dumps (.int n)).data ++ rest = '-' :: ((natToDec n.natAbs).data ++ rest) := by
  show (intToDec n).data ++ rest = _
  rw [intToDec, if_pos hneg, String.data_append, List.append_assoc]
  rfl

theorem dumpsItems_cons_nil_data (v : Value) (rest : List Char) :
    (dumpsItems (.cons v .nil)).data ++ rest = (dumps v).data ++ rest := rfl

theorem dumpsItems_cons_cons_data (v w : Value) (tl : VList) (rest : List Char) :
    (dumpsItems (.cons v (.cons w tl))).data ++ rest =
      (dumps v).data ++ (',' :: ' ' :: ((dumpsItems (.cons w tl)).data ++ rest)) := by
  show (dumps v ++ ", " ++ dumpsItems (.cons w tl)).data ++ rest = _
  rw [String.data_append, String.data_append, List.append_assoc, List.append_assoc]
  rfl

theorem dumpsFields_cons_nil_data (k : String) (v : Value) (rest : List Char) :
    (dumpsFields (.cons k v .nil)).data ++ rest =
      '"' :: (k.data.flatMap escChar ++ ('"' :: ':' :: ' ' :: ((dumps v).data ++ rest))) := by
  show (dumpsStr k ++ ": " ++ dumps v).data ++ rest = _
  simp only [dumpsStr, String.data_append, List.append_assoc]
  rfl

theorem dumpsFields_cons_cons_data (k : String) (v : Value) (k2 : String) (v2 : Value)
    (tl : FList) (rest : List Char) :
    (dumpsFields (.cons k v (.cons k2 v2 tl))).data ++ rest =
      '"' :: (k.data.flatMap escChar ++ ('"' :: ':' :: ' ' :: ((dumps v).data ++
        (',' :: ' ' :: ((dumpsFields (.cons k2 v2 tl)).data ++ rest))))) := by
  show (dumpsStr k ++ ": " ++ dumps v ++ ", " ++ dumpsFields (.cons k2 v2 tl)).data ++ rest = _
  simp only [dumpsStr, String.data_append, List.append_assoc]
  rfl

/-- The first character of any serialized value is not whitespace and not a
closing bracket or separator. -/
theorem dumps_head (v : Value) : ∃ c0 t0, (dumps v).data = c0 :: t0 ∧
    jsonWs c0 = false ∧ ¬c0 = ']' ∧ ¬c0 = '\x7d' ∧ ¬c0 = ',' := by
  cases v with
  | null => exact ⟨'n', _, rfl, by decide, by decide, by decide, by decide⟩
  | bool b =>
    cases b with
    | true => exact ⟨'t', _, rfl, by decide, by decide, by decide, by decide⟩
    | false => exact ⟨'f', _, rfl, by decide, by decide, by decide, by decide⟩
  | str s =>
    refine ⟨'"', s.data.flatMap escChar ++ "\"".data, ?_, by decide, by decide, by decide,
      by decide⟩
    show ("\"" ++ ⟨s.data.flatMap escChar⟩ ++ "\"").data = _
    rw [String.data_append, String.data_append]
    rfl
  | arr xs =>
    refine ⟨'[', (dumpsItems xs).data ++ "]".data, ?_, by decide, by decide, by decide,
      by decide⟩
    show ("[" ++ dumpsItems xs ++ "]").data = _
    rw [String.data_append, String.data_append]
    rfl
  | obj fs =>
    refine ⟨'\x7b', (dumpsFields fs).data ++ "\x7d".data, ?_, by decide, by decide, by decide,
      by decide⟩
    show ("\x7b" ++ dumpsFields fs ++ "\x7d").data = _
    rw [String.data_append, String.data_append]
    rfl
  | int n =>
    by_cases hneg : n < 0
    · refine ⟨'-', (natToDec n.natAbs).data, ?_, by decide, by decide, by decide, by decide⟩
      show (intToDec n).data = _
      rw [intToDec, if_pos hneg, String.data_append]
      rfl
    · rcases hdd : natToDecAux (n.toNat + 1) n.toNat with _ | ⟨d, ds⟩
      · exact absurd hdd (natToDecAux_ne_nil _ _)
      · have hd : d.isDigit = true :=
          natToDecAux_digits _ _ d (by rw [hdd]; exact List.mem_cons_self _ _)
        obtain ⟨_, _, _, _, _, _, _, q8, q9, q10, q11⟩ := digit_facts d hd
        refine ⟨d, ds, ?_, q8, q9, q10, q11⟩
        show (intToDec n).data = _
        rw [intToDec, if_neg hneg]
        exact hdd

theorem dumpsItems_head (v : Value) (tl : VList) : ∃ c0 t0,
    (dumpsItems (.cons v tl)).data = c0 :: t0 ∧ jsonWs c0 = false ∧
      ¬c0 = ']' ∧ ¬c0 = '\x7d' ∧ ¬c0 = ',' := by
  obtain ⟨c0, t0, hv0, h1, h2, h3, h4⟩ := dumps_head v
  cases tl with
  | nil => exact ⟨c0, t0, hv0, h1, h2, h3, h4⟩
  | cons w tl2 =>
    refine ⟨c0, (t0 ++ ", ".data) ++ (dumpsItems (.cons w tl2)).data, ?_, h1, h2, h3, h4⟩
    show (dumps v ++ ", " ++ dumpsItems (.cons w tl2)).data = _
    rw [String.data_append, String.data_append, hv0]
    rfl

theorem dumpsFields_head (k : String) (v : Value) (tl : FList) :
    ∃ t0, (dumpsFields (.cons k v tl)).data = '"' :: t0 := by
  cases tl with
  | nil =>
    refine ⟨((k.data.flatMap escChar ++ "\"".data) ++ ": ".data) ++ (dumps v).data, ?_⟩
    show (dumpsStr k ++ ": " ++ dumps v).data = _
    rw [dumpsStr, String.data_append, String.data_append, String.data_append,
      String.data_append]
    rfl
  | cons k2 v2 tl2 =>
    refine ⟨((((k.data.flatMap escChar ++ "\"".data) ++ ": ".data) ++ (dumps v).data) ++
      ", ".data) ++ (dumpsFields (.cons k2 v2 tl2)).data, ?_⟩
    show (dumpsStr k ++ ": " ++ dumps v ++ ", " ++ dumpsFields (.cons k2 v2 tl2)).data = _
    rw [dumpsStr, String.data_append, String.data_append, String.data_append,
      String.data_append, String.data_append, String.data_append]
    rfl

/-! `json.loads` folds a parsed member list into a dict; when the keys are
distinct (as on any `json.dumps` output of well-formed data) the fold is the
identity. -/

theorem FList.append_nil : ∀ fs : FList, fs.append .nil = fs
  | .nil => rfl
  | .cons k v tl => by
    show FList.cons k v (tl.append .nil) = _
    rw [FList.append_nil tl]

theorem FList.keys_append : ∀ a b : FList, (a.append b).keys = a.keys ++ b.keys
  | .nil, b => rfl
  | .cons k v tl, b => by
    show FList.keys (.cons k v (tl.append b)) = FList.keys (.cons k v tl) ++ b.keys
    rw [FList.keys, FList.keys_append tl b]
    rfl

theorem FList.insertKV_not_mem : ∀ (acc : FList) (k : String) (v : Value),
    k ∉ acc.keys → acc.insertKV k v = acc.append (.cons k v .nil)
  | .nil, k, v, _ => rfl
  | .cons k1 v1 tl, k, v, h => by
    show (if k1 = k then FList.cons k1 v tl else FList.cons k1 v1 (tl.insertKV k v)) =
      FList.cons k1 v1 (tl.append (.cons k v .nil))
    rw [FList.keys, List.mem_cons] at h
    push_neg at h
    rw [if_neg (fun he => h.1 he.symm), FList.insertKV_not_mem tl k v h.2]

theorem FList.append_snoc : ∀ (a : FList) (k : String) (v : Value) (b : FList),
    (a.append (.cons k v .nil)).append b = a.append (.cons k v b)
  | .nil, k, v, b => rfl
  | .cons k1 v1 tl, k, v, b => by
    show FList.cons k1 v1 ((tl.append (.cons k v .nil)).append b) =
      FList.cons k1 v1 (tl.append (.cons k v b))
    rw [FList.append_snoc tl k v b]

theorem FList.fromPairsAux_nodup : ∀ (fs acc : FList),
    (acc.keys ++ fs.keys).Nodup → FList.fromPairsAux acc fs = acc.append fs
  | .nil, acc, _ => by
    show acc = acc.append .nil
    rw [FList.append_nil]
  | .cons k v tl, acc, hnd => by
    show FList.fromPairsAux (acc.insertKV k v) tl = _
    rw [FList.keys] at hnd
    have hk : k ∉ acc.keys := fun hmem =>
      (List.nodup_append.mp hnd).2.2 hmem (List.mem_cons_self _ _)
    have hnd2 : ((acc.append (.cons k v .nil)).keys ++ tl.keys).Nodup := by
      rw [FList.keys_append]
      show ((acc.keys ++ [k]) ++ tl.keys).Nodup
      rw [← List.append_cons]
      exact hnd
    rw [FList.insertKV_not_mem acc k v hk, FList.fromPairsAux_nodup tl _ hnd2,
      FList.append_snoc]

theorem fromPairs_id (fs : FList) (h : fs.keys.Nodup) : fs.fromPairs = fs := by
  rw [FList.fromPairs, FList.fromPairsAux_nodup fs .nil (by simpa using h)]
  rfl
/-! ## The round trip `parseV (dumps v) = v` -/

theorem head_cons_ne (c d : Char) (l : List Char) (h : ¬c = d) :
    ¬((c :: l).head? = some d) := by
  rw [List.head?_cons]
  intro hc
  exact h (Option.some.inj hc)

theorem parseItems_some (f : Nat) (cs : List Char) (v : Value) (r : List Char)
    (h : parseV f cs = some (v, r)) :
    parseItems (f+1) cs =
      (if (skipWs r).head? = some ']' then some (.cons v .nil, (skipWs r).tail)
      else if (skipWs r).head? = some ',' then
        consItem v (parseItems f (skipWs (skipWs r).tail))
      else none) := by
  rw [parseItems_step, h]

theorem parseFields_kv (f : Nat) (cs : List Char) (kcs : List Char) (r2 : List Char)
    (v : Value) (r4 : List Char)
    (h1 : parseStrBody (cs.length + 1) cs = some (kcs, r2))
    (h2 : (skipWs r2).head? = some ':')
    (h3 : parseV f (skipWs (skipWs r2).tail) = some (v, r4)) :
    parseFields (f+1) ('"' :: cs) =
      (if (skipWs r4).head? = some '\x7d' then some (.cons ⟨kcs⟩ v .nil, (skipWs r4).tail)
      else if (skipWs r4).head? = some ',' then
        consField ⟨kcs⟩ v (parseFields f (skipWs (skipWs r4).tail))
      else none) := by
  rw [parseFields.eq_def]
  show (if ('"' :: cs : List Char).head? = some '"' then _ else _) = _
  rw [if_pos (show ('"' :: cs : List Char).head? = some '"' from rfl), List.tail_cons, h1]
  show (if (skipWs r2).head? = some ':' then _ else _) = _
  rw [if_pos h2, h3]

/-- The parser inverts `json.dumps` on well-formed data, given fuel covering
the value's weight and a continuation that does not begin with a digit. -/
theorem parse_dumps (f : Nat) :
    (∀ v rest, Value.wf v = true → weightV v ≤ f → noDigit rest →
      parseV f ((dumps v).data ++ rest) = some (v, rest)) ∧
    (∀ xs rest, VList.wfItems xs = true → ¬xs = .nil → weightItems xs ≤ f →
      parseItems f ((dumpsItems xs).data ++ (']' :: rest)) = some (xs, rest)) ∧
    (∀ fs rest, FList.wfFields fs = true → ¬fs = .nil → weightFields fs ≤ f →
      parseFields f ((dumpsFields fs).data ++ ('\x7d' :: rest)) = some (fs, rest)) := by
  induction f with
  | zero =>
    refine ⟨?_, ?_, ?_⟩
    · intro v _ _ hw _
      exact absurd hw (by have := weightV_pos v; omega)
    · intro xs _ _ _ hw
      exact absurd hw (by have := weightItems_pos xs; omega)
    · intro fs _ _ _ hw
      exact absurd hw (by have := weightFields_pos fs; omega)
  | succ f ih =>
    obtain ⟨ihV, ihI, ihF⟩ := ih
    refine ⟨?_, ?_, ?_⟩
    · intro v rest hwf hw hrest
      cases v with
      | null => exact parseV_null f rest
      | bool b =>
        cases b with
        | true => exact parseV_true f rest
        | false => exact parseV_false f rest
      | int n =>
        by_cases hneg : n < 0
        · rw [dumps_int_neg_data n hneg,
            parseV_cons f _ _ (by decide) (by decide) (by decide),
            if_neg (by decide), if_pos rfl, parseDigits_natToDec _ rest hrest]
          show some (Value.int (-(n.natAbs : Int)), rest) = some (.int n, rest)
          have he : -((n.natAbs : Nat) : Int) = n := by omega
          rw [he]
        · rcases hdd : natToDecAux (n.toNat + 1) n.toNat with _ | ⟨d, ds⟩
          · exact absurd hdd (natToDecAux_ne_nil _ _)
          · have hdig : d.isDigit = true :=
              natToDecAux_digits _ _ d (by rw [hdd]; exact List.mem_cons_self _ _)
            obtain ⟨q1, q2, q3, q4, q5, q6, q7, _, _, _, _⟩ := digit_facts d hdig
            have hdata : (dumps (.int n)).data ++ rest = d :: (ds ++ rest) := by
              show (intToDec n).data ++ rest = _
              rw [intToDec, if_neg hneg]
              show natToDecAux (n.toNat + 1) n.toNat ++ rest = _
              rw [hdd]
              rfl
            rw [hdata, parseV_cons f d _ q1 q2 q3, if_neg q4, if_neg q5, if_neg q6,
              if_neg q7, if_pos hdig]
            rw [show d :: (ds ++ rest) = (natToDec n.toNat).data ++ rest from by
              show _ = natToDecAux (n.toNat + 1) n.toNat ++ rest
              rw [hdd]
              rfl]
            rw [parseDigits_natToDec _ rest hrest]
            show some (Value.int ((n.toNat : Nat) : Int), rest) = some (.int n, rest)
            have he : ((n.toNat : Nat) : Int) = n := by omega
            rw [he]
      | str s =>
        rw [dumps_str_data, parseV_cons f _ _ (by decide) (by decide) (by decide),
          if_pos rfl,
          parseStrBody_escape s.data _ rest (by rw [List.length_append]; omega)]
        rfl
      | arr xs =>
        have hw2 : weightItems xs ≤ f := by
          have h2 : 1 + weightItems xs ≤ f + 1 := hw
          omega
        rw [dumps_arr_data, parseV_cons f _ _ (by decide) (by decide) (by decide),
          if_neg (by decide), if_neg (by decide), if_pos rfl]
        cases xs with
        | nil =>
          rw [show ((dumpsItems VList.nil).data ++ (']' :: rest) : List Char) = ']' :: rest
              from rfl,
            skipWs_cons_false _ _ (by decide),
            if_pos (show (']' :: rest : List Char).head? = some ']' from rfl)]
          rfl
        | cons v tl =>
          obtain ⟨c0, t0, hv0, hws0, hrb0, _, _⟩ := dumpsItems_head v tl
          rw [hv0, List.cons_append, skipWs_cons_false _ _ hws0]
          rw [if_neg (by
            rw [List.head?_cons]
            intro hcontra
            exact hrb0 (Option.some.inj hcontra))]
          rw [← List.cons_append, ← hv0,
            ihI (.cons v tl) rest hwf (by intro hcontra; cases hcontra) hw2]
          rfl
      | obj fs =>
        have h2 : (decide fs.keys.Nodup && FList.wfFields fs) = true := hwf
        rw [Bool.and_eq_true] at h2
        have hnodup : fs.keys.Nodup := of_decide_eq_true h2.1
        have hwff := h2.2
        have hw2 : weightFields fs ≤ f := by
          have h3 : 1 + weightFields fs ≤ f + 1 := hw
          omega
        rw [dumps_obj_data, parseV_cons f _ _ (by decide) (by decide) (by decide),
          if_neg (by decide), if_neg (by decide), if_neg (by decide), if_pos rfl]
        cases fs with
        | nil =>
          rw [show ((dumpsFields FList.nil).data ++ ('\x7d' :: rest) : List Char) =
              '\x7d' :: rest from rfl,
            skipWs_cons_false _ _ (by decide),
            if_pos (show ('\x7d' :: rest : List Char).head? = some '\x7d' from rfl)]
          rfl
        | cons k v tl =>
          obtain ⟨t0, hv0⟩ := dumpsFields_head k v tl
          rw [hv0, List.cons_append, skipWs_cons_false _ _ (by decide),
            if_neg (head_cons_ne _ _ _ (by decide)), ← List.cons_append, ← hv0,
            ihF (.cons k v tl) rest hwff (by intro hcontra; cases hcontra) hw2]
          show some (Value.obj (FList.fromPairs (.cons k v tl)), rest) = _
          rw [fromPairs_id _ hnodup]
    · intro xs rest hwf hne hw
      cases xs with
      | nil => exact absurd rfl hne
      | cons v tl =>
        have hwfv : Value.wf v = true := by
          have h2 : (Value.wf v && VList.wfItems tl) = true := hwf
          rw [Bool.and_eq_true] at h2
          exact h2.1
        have hwft : VList.wfItems tl = true := by
          have h2 : (Value.wf v && VList.wfItems tl) = true := hwf
          rw [Bool.and_eq_true] at h2
          exact h2.2
        cases tl with
        | nil =>
          have hwv : weightV v ≤ f := by
            have h2 : 1 + weightV v ≤ f + 1 := hw
            omega
          rw [dumpsItems_cons_nil_data,
            parseItems_some f _ v (']' :: rest)
              (ihV v (']' :: rest) hwfv hwv
                (show (']' : Char).isDigit = false from by decide)),
            skipWs_cons_false _ _ (by decide),
            if_pos (show (']' :: rest : List Char).head? = some ']' from rfl)]
          rfl
        | cons w tl2 =>
          have hwv : weightV v ≤ f := by
            have h2 : 1 + max (weightV v) (weightItems (.cons w tl2)) ≤ f + 1 := hw
            omega
          have hwt : weightItems (.cons w tl2) ≤ f := by
            have h2 : 1 + max (weightV v) (weightItems (.cons w tl2)) ≤ f + 1 := hw
            omega
          rw [dumpsItems_cons_cons_data,
            parseItems_some f _ v _
              (ihV v (',' :: ' ' :: ((dumpsItems (.cons w tl2)).data ++ (']' :: rest)))
                hwfv hwv (show (',' : Char).isDigit = false from by decide)),
            skipWs_cons_false _ _ (by decide),
            if_neg (head_cons_ne _ _ _ (by decide)),
            if_pos (show (',' :: ' ' :: ((dumpsItems (.cons w tl2)).data ++ (']' :: rest))
                : List Char).head? = some ',' from rfl),
            List.tail_cons, skipWs_cons_true _ _ (by decide)]
          obtain ⟨c0, t0, hv0, hws0, _, _, _⟩ := dumpsItems_head w tl2
          rw [hv0, List.cons_append, skipWs_cons_false _ _ hws0, ← List.cons_append, ← hv0,
            ihI (.cons w tl2) rest hwft (by intro hcontra; cases hcontra) hwt]
          rfl
    · intro fs rest hwf hne hw
      cases fs with
      | nil => exact absurd rfl hne
      | cons k v tl =>
        have hwfv : Value.wf v = true := by
          have h2 : (Value.wf v && FList.wfFields tl) = true := hwf
          rw [Bool.and_eq_true] at h2
          exact h2.1
        have hwft : FList.wfFields tl = true := by
          have h2 : (Value.wf v && FList.wfFields tl) = true := hwf
          rw [Bool.and_eq_true] at h2
          exact h2.2
        cases tl with
        | nil =>
          have hwv : weightV v ≤ f := by
            have h2 : 1 + weightV v ≤ f + 1 := hw
            omega
          rw [dumpsFields_cons_nil_data]
          have h3 : parseV f
              (skipWs (skipWs (':' :: ' ' :: ((dumps v).data ++ ('\x7d' :: rest)))).tail) =
              some (v, '\x7d' :: rest) := by
            rw [skipWs_cons_false _ _ (by decide), List.tail_cons,
              skipWs_cons_true _ _ (by decide)]
            obtain ⟨c0, t0, hv0, hws0, _, _, _⟩ := dumps_head v
            rw [hv0, List.cons_append, skipWs_cons_false _ _ hws0, ← List.cons_append, ← hv0]
            exact ihV v _ hwfv hwv (show ('\x7d' : Char).isDigit = false from by decide)
          rw [parseFields_kv f _ k.data (':' :: ' ' :: ((dumps v).data ++ ('\x7d' :: rest)))
              v ('\x7d' :: rest)
              (parseStrBody_escape k.data _ _ (by rw [List.length_append]; omega))
              (by rw [skipWs_cons_false _ _ (by decide)]; rfl)
              h3,
            skipWs_cons_false _ _ (by decide),
            if_pos (show ('\x7d' :: rest : List Char).head? = some '\x7d' from rfl)]
          rfl
        | cons k2 v2 tl2 =>
          have hwv : weightV v ≤ f := by
            have h2 : 1 + max (weightV v) (weightFields (.cons k2 v2 tl2)) ≤ f + 1 := hw
            omega
          have hwt : weightFields (.cons k2 v2 tl2) ≤ f := by
            have h2 : 1 + max (weightV v) (weightFields (.cons k2 v2 tl2)) ≤ f + 1 := hw
            omega
          rw [dumpsFields_cons_cons_data]
          have h3 : parseV f
              (skipWs (skipWs (':' :: ' ' :: ((dumps v).data ++
                (',' :: ' ' :: ((dumpsFields (.cons k2 v2 tl2)).data ++
                  ('\x7d' :: rest)))))).tail) =
              some (v, ',' :: ' ' :: ((dumpsFields (.cons k2 v2 tl2)).data ++
                ('\x7d' :: rest))) := by
            rw [skipWs_cons_false _ _ (by decide), List.tail_cons,
              skipWs_cons_true _ _ (by decide)]
            obtain ⟨c0, t0, hv0, hws0, _, _, _⟩ := dumps_head v
            rw [hv0, List.cons_append, skipWs_cons_false _ _ hws0, ← List.cons_append, ← hv0]
            exact ihV v _ hwfv hwv (show (',' : Char).isDigit = false from by decide)
          rw [parseFields_kv f _ k.data _ v _
              (parseStrBody_escape k.data _ _ (by rw [List.length_append]; omega))
              (by rw [skipWs_cons_false _ _ (by decide)]; rfl)
              h3,
            skipWs_cons_false _ _ (by decide),
            if_neg (head_cons_ne _ _ _ (by decide)),
            if_pos (show (',' :: ' ' :: ((dumpsFields (.cons k2 v2 tl2)).data ++
                ('\x7d' :: rest)) : List Char).head? = some ',' from rfl),
            List.tail_cons, skipWs_cons_true _ _ (by decide)]
          obtain ⟨t0, hv0⟩ := dumpsFields_head k2 v2 tl2
          rw [hv0, List.cons_append, skipWs_cons_false _ _ (by decide),
            ← List.cons_append, ← hv0,
            ihF (.cons k2 v2 tl2) rest hwft (by intro hcontra; cases hcontra) hwt]
          rfl

mutual

/-- The fuel a value needs is at most the length of its serialization. -/
theorem weightV_le_len : ∀ v : Value, weightV v ≤ (dumps v).data.length
  | .null => by decide
  | .bool true => by decide
  | .bool false => by decide
  | .int n => by
    obtain ⟨c0, t0, hv0, _, _, _, _⟩ := dumps_head (.int n)
    rw [hv0]
    show 1 ≤ t0.length + 1
    omega
  | .str s => by
    obtain ⟨c0, t0, hv0, _, _, _, _⟩ := dumps_head (.str s)
    rw [hv0]
    show 1 ≤ t0.length + 1
    omega
  | .arr .nil => by decide
  | .arr (.cons v tl) => by
    have hlen : (dumps (.arr (.cons v tl))).data.length =
        (dumpsItems (.cons v tl)).data.length + 2 := by
      have h := congrArg List.length (dumps_arr_data (.cons v tl) [])
      rw [List.append_nil] at h
      rw [h]
      simp [List.length_append]
    have hi := weightItems_le_len (.cons v tl) (by intro hcontra; cases hcontra)
    show 1 + weightItems (.cons v tl) ≤ _
    omega
  | .obj .nil => by decide
  | .obj (.cons k v tl) => by
    have hlen : (dumps (.obj (.cons k v tl))).data.length =
        (dumpsFields (.cons k v tl)).data.length + 2 := by
      have h := congrArg List.length (dumps_obj_data (.cons k v tl) [])
      rw [List.append_nil] at h
      rw [h]
      simp [List.length_append]
    have hf := weightFields_le_len (.cons k v tl) (by intro hcontra; cases hcontra)
    show 1 + weightFields (.cons k v tl) ≤ _
    omega

theorem weightItems_le_len : ∀ xs : VList, ¬xs = .nil →
    weightItems xs ≤ (dumpsItems xs).data.length + 1
  | .nil, hne => absurd rfl hne
  | .cons v .nil, _ => by
    have hv := weightV_le_len v
    show 1 + weightV v ≤ _
    rw [show (dumpsItems (.cons v .nil)).data = (dumps v).data from rfl]
    omega
  | .cons v (.cons w tl), _ => by
    have hv := weightV_le_len v
    have ht := weightItems_le_len (.cons w tl) (by intro hcontra; cases hcontra)
    have hlen : (dumpsItems (.cons v (.cons w tl))).data.length =
        (dumps v).data.length + 2 + (dumpsItems (.cons w tl)).data.length := by
      have h := congrArg List.length (dumpsItems_cons_cons_data v w tl [])
      rw [List.append_nil, List.append_nil] at h
      rw [h]
      simp [List.length_append]
      omega
    show 1 + max (weightV v) (weightItems (.cons w tl)) ≤ _
    omega

theorem weightFields_le_len : ∀ fs : FList, ¬fs = .nil →
    weightFields fs ≤ (dumpsFields fs).data.length + 1
  | .nil, hne => absurd rfl hne
  | .cons k v .nil, _ => by
    have hv := weightV_le_len v
    have hlen : (dumpsFields (.cons k v .nil)).data.length =
        (k.data.flatMap escChar).length + 4 + (dumps v).data.length := by
      have h := congrArg List.length (dumpsFields_cons_nil_data k v [])
      rw [List.append_nil] at h
      rw [h]
      simp [List.length_append]
      omega
    show 1 + weightV v ≤ _
    omega
  | .cons k v (.cons k2 v2 tl), _ => by
    have hv := weightV_le_len v
    have ht := weightFields_le_len (.cons k2 v2 tl) (by intro hcontra; cases hcontra)
    have hlen : (dumpsFields (.cons k v (.cons k2 v2 tl))).data.length =
        (k.data.flatMap escChar).length + 6 + (dumps v).data.length +
          (dumpsFields (.cons k2 v2 tl)).data.length := by
      have h := congrArg List.length (dumpsFields_cons_cons_data k v k2 v2 tl [])
      rw [List.append_nil] at h
      rw [h]
      simp [List.length_append]
      omega
    show 1 + max (weightV v) (weightFields (.cons k2 v2 tl)) ≤ _
    omega

end

/-- `json.loads` inverts `json.dumps` on well-formed values. -/
theorem loads_dumps (v : Value) (h : Value.wf v = true) : loads (dumps v) = some v := by
  rw [loads]
  obtain ⟨c0, t0, hv0, hws0, _, _, _⟩ := dumps_head v
  have hskip : skipWs (dumps v).data = (dumps v).data := by
    rw [hv0]
    exact skipWs_cons_false _ _ hws0
  rw [hskip]
  have hparse := (parse_dumps ((dumps v).length + 1)).1 v [] h
    (by
      have hb := weightV_le_len v
      show weightV v ≤ (dumps v).data.length + 1
      omega)
    trivial
  rw [List.append_nil] at hparse
  rw [hparse]
  rfl
/-! ## C1: the GeoJSON → DataFrame → GeoJSON round trip -/

theorem pySpace_eq_false (c : Char) (h1 : ¬c = ' ') (h2 : ¬c = '\t') (h3 : ¬c = '\n')
    (h4 : ¬c = '\r') (h5 : ¬c = '\x0b') (h6 : ¬c = '\x0c') : pySpace c = false := by
  rw [pySpace]
  simp [h1, h2, h3, h4, h5, h6]

/-- The first character of a serialization is never Python whitespace. -/
theorem dumps_head_not_pySpace (v : Value) :
    ∃ c0 t0, (dumps v).data = c0 :: t0 ∧ pySpace c0 = false := by
  cases v with
  | null => exact ⟨'n', _, rfl, by decide⟩
  | bool b =>
    cases b with
    | true => exact ⟨'t', _, rfl, by decide⟩
    | false => exact ⟨'f', _, rfl, by decide⟩
  | str s =>
    refine ⟨'"', s.data.flatMap escChar ++ "\"".data, ?_, by decide⟩
    show ("\"" ++ ⟨s.data.flatMap escChar⟩ ++ "\"").data = _
    rw [String.data_append, String.data_append]
    rfl
  | arr xs =>
    refine ⟨'[', (dumpsItems xs).data ++ "]".data, ?_, by decide⟩
    show ("[" ++ dumpsItems xs ++ "]").data = _
    rw [String.data_append, String.data_append]
    rfl
  | obj fs =>
    refine ⟨'\x7b', (dumpsFields fs).data ++ "\x7d".data, ?_, by decide⟩
    show ("\x7b" ++ dumpsFields fs ++ "\x7d").data = _
    rw [String.data_append, String.data_append]
    rfl
  | int n =>
    by_cases hneg : n < 0
    · refine ⟨'-', (natToDec n.natAbs).data, ?_, by decide⟩
      show (intToDec n).data = _
      rw [intToDec, if_pos hneg, String.data_append]
      rfl
    · rcases hdd : natToDecAux (n.toNat + 1) n.toNat with _ | ⟨d, ds⟩
      · exact absurd hdd (natToDecAux_ne_nil _ _)
      · have hdig : d.isDigit = true :=
          natToDecAux_digits _ _ d (by rw [hdd]; exact List.mem_cons_self _ _)
        have hb := (isDigit_iff d).1 hdig
        refine ⟨d, ds, ?_, ?_⟩
        · show (intToDec n).data = _
          rw [intToDec, if_neg hneg]
          exact hdd
        · refine pySpace_eq_false d ?_ ?_ ?_ ?_ ?_ ?_ <;>
            (intro he; subst he; exact absurd hb (by decide))

/-- `str.strip()` of a serialization is never empty. -/
theorem pyStrip_dumps_ne (v : Value) : ¬pyStrip (dumps v) = "" := by
  obtain ⟨c0, t0, hv0, hsp⟩ := dumps_head_not_pySpace v
  intro he
  rw [pyStrip, hv0, List.dropWhile_cons, hsp] at he
  rw [if_neg (by intro hcontra; cases hcontra)] at he
  have hdata : ((c0 :: t0).reverse.dropWhile pySpace).reverse = [] :=
    congrArg String.data he
  rw [List.reverse_eq_nil_iff, List.dropWhile_eq_nil_iff] at hdata
  have hc0 := hdata c0 (by rw [List.mem_reverse]; exact List.mem_cons_self _ _)
  rw [hsp] at hc0
  cases hc0

/-- Decoding a cell holding a serialized well-formed value restores it. -/
theorem decodeGeom_dumps (v : Value) (h : Value.wf v = true) :
    decodeGeom (.str (dumps v)) = v := by
  show (if ¬pyStrip (dumps v) = "" then
      match loads (dumps v) with
      | some w => w
      | none => Value.null
    else Value.null) = v
  rw [if_pos (pyStrip_dumps_ne v), loads_dumps v h]

theorem lookup_append_right (r x : List (String × Value)) (c : String)
    (h : c ∉ r.map Prod.fst) : (r ++ x).lookup c = x.lookup c := by
  induction r with
  | nil => rfl
  | cons p tl ih =>
    obtain ⟨k, v⟩ := p
    rw [List.map_cons, List.mem_cons, not_or] at h
    rw [List.cons_append, lookup_cons_ne _ _ _ _ h.1]
    exact ih h.2

theorem lookup_of_mem_nodup (r : List (String × Value)) (k : String) (v : Value)
    (hnodup : (r.map Prod.fst).Nodup) (hmem : (k, v) ∈ r) : r.lookup k = some v := by
  induction r with
  | nil => cases hmem
  | cons p tl ih =>
    obtain ⟨k1, v1⟩ := p
    rw [List.map_cons, List.nodup_cons] at hnodup
    rcases List.mem_cons.mp hmem with h | h
    · injection h with h1 h2
      subst h1
      subst h2
      exact lookup_cons_self _ _ _
    · have hk1 : ¬k = k1 := by
        rintro rfl
        exact hnodup.1 (List.mem_map.mpr ⟨(k, v), h, rfl⟩)
      rw [lookup_cons_ne _ _ _ _ hk1]
      exact ih hnodup.2 h

def docC1 : GeoDoc := ⟨some "FeatureCollection", [⟨none, .obj .nil, []⟩]⟩

/-- C1 counterexample: a feature with no `"id"` and the falsy geometry
`{}`.  The round trip invents the id `"feature_0"` and collapses the
geometry to `null`, so neither ids nor geometries are preserved as the
claim states. -/
theorem cex_C1 :
    (dataframe_to_geojson (geojson_to_dataframe docC1)).features.map Feature.id ≠
      docC1.features.map Feature.id ∧
    (dataframe_to_geojson (geojson_to_dataframe docC1)).features.map Feature.geometry ≠
      docC1.features.map Feature.geometry := by
  constructor
  · decide
  · decide

/-- C1 (as amended): the round trip preserves the feature count.  For a
feature whose property keys are distinct and avoid the reserved column
names, and whose geometry is well-formed JSON, the output feature carries:
the original id when one was present (else the invented `feature_<i>`); the
original geometry when it was truthy, else `null` (falsy geometries — `{}`,
`[]`, `0`, `""`, `false` — collapse to `null`); and every original property
whose value was a non-empty string. -/
theorem claim_C1 (g : GeoDoc) (i : Nat) (hi : i < g.features.length)
    (hnodup : ((g.features[i]).properties.map Prod.fst).Nodup)
    (hres1 : "_feature_id" ∉ (g.features[i]).properties.map Prod.fst)
    (hres2 : "geometry_json" ∉ (g.features[i]).properties.map Prod.fst)
    (hwf : Value.wf (g.features[i]).geometry = true) :
    (dataframe_to_geojson (geojson_to_dataframe g)).features.length =
      g.features.length ∧
    ∃ f1, (dataframe_to_geojson (geojson_to_dataframe g)).features[i]? = some f1 ∧
      f1.id = some ((g.features[i]).id.getD (.str ("feature_" ++ natToDec i))) ∧
      f1.geometry = (if (g.features[i]).geometry.truthy then (g.features[i]).geometry
        else .null) ∧
      (∀ k s, (k, .str s) ∈ (g.features[i]).properties → ¬s = "" →
        (k, .str s) ∈ f1.properties) := by
  have hne : g.features ≠ [] := List.ne_nil_of_length_pos (by omega)
  have hmemrow : featureRow i (g.features[i]) ∈
      g.features.enum.map (fun p => featureRow p.1 p.2) := by
    have h1 : (i, g.features[i]) ∈ g.features.enum := by
      have := List.getElem_enum g.features i (by simpa using hi)
      exact this ▸ List.getElem_mem _
    exact List.mem_map.mpr ⟨(i, g.features[i]), h1, rfl⟩
  have hdisj : ∀ k ∈ (g.features[i]).properties.map Prod.fst,
      k ∉ ([("_feature_id",
          (match (g.features[i]).id with
          | some v => v
          | none => .str ("feature_" ++ natToDec i))),
        ("geometry_json",
          if (g.features[i]).geometry.truthy then .str (dumps (g.features[i]).geometry)
          else .str "")] : List (String × Value)).map Prod.fst := by
    intro k hk
    have h1 : ¬k = "_feature_id" := by rintro rfl; exact hres1 hk
    have h2 : ¬k = "geometry_json" := by rintro rfl; exact hres2 hk
    simp [h1, h2]
  have hR : featureRow i (g.features[i]) =
      [("_feature_id",
        (match (g.features[i]).id with
        | some v => v
        | none => .str ("feature_" ++ natToDec i))),
      ("geometry_json",
        if (g.features[i]).geometry.truthy then .str (dumps (g.features[i]).geometry)
        else .str "")] ++ (g.features[i]).properties := by
    show (g.features[i]).properties.foldl (fun row kv => dictInsert row kv.1 kv.2) _ = _
    exact foldl_dictInsert_eq_append _ _ hdisj hnodup
  refine ⟨?_, ?_⟩
  · rw [geojson_to_dataframe_eq g hne, dataframe_to_geojson]
    simp
  have hcols : (geojson_to_dataframe g).cols = encCols g := by
    rw [geojson_to_dataframe_eq g hne]
  obtain ⟨rowI, hrowI, hcell1⟩ := encode_rowCell g i hi "_feature_id" (by simp [encCols])
    (mem_collectCols _ _ _ hmemrow (featureRow_has_reserved i _).1)
  have hfeat : (dataframe_to_geojson (geojson_to_dataframe g)).features[i]? =
      some (decodeFeature (geojson_to_dataframe g).cols rowI) := by
    rw [dataframe_to_geojson]
    show ((geojson_to_dataframe g).rows.map
      (decodeFeature (geojson_to_dataframe g).cols))[i]? = _
    rw [List.getElem?_map, hrowI]
    rfl
  rw [hcols] at hfeat
  refine ⟨_, hfeat, ?_, ?_, ?_⟩
  · -- id
    show some (rowCell rowI "_feature_id" .null) = _
    rw [hcell1, rowCell, hR, lookup_append_left _ _ _ (by simp), lookup_cons_self]
    show some _ = _
    cases (g.features[i]).id <;> rfl
  · -- geometry
    obtain ⟨rowI2, hrowI2, hcell2⟩ := encode_rowCell g i hi "geometry_json"
      (by simp [encCols])
      (mem_collectCols _ _ _ hmemrow (featureRow_has_reserved i _).2)
    have hre : rowI2 = rowI := by
      rw [hrowI] at hrowI2
      exact (Option.some.inj hrowI2).symm
    subst hre
    have hRv : rowCell (featureRow i (g.features[i])) "geometry_json" .null =
        (if (g.features[i]).geometry.truthy then .str (dumps (g.features[i]).geometry)
        else .str "") := by
      rw [rowCell, hR, lookup_append_left _ _ _ (by simp),
        lookup_cons_ne _ _ _ _ (by decide), lookup_cons_self]
    have h3 := hcell2.trans hRv
    have hlk : rowI2.lookup "geometry_json" = some
        (if (g.features[i]).geometry.truthy then .str (dumps (g.features[i]).geometry)
        else .str "") := by
      rcases hl : rowI2.lookup "geometry_json" with _ | w
      · exfalso
        rw [rowCell, hl] at h3
        by_cases htr : (g.features[i]).geometry.truthy
        · rw [if_pos htr] at h3; exact Value.noConfusion h3
        · rw [if_neg htr] at h3; exact Value.noConfusion h3
      · rw [rowCell, hl] at h3
        exact congrArg some h3
    show decodeGeom (rowCell rowI2 "geometry_json" (.str "")) = _
    rw [rowCell, hlk]
    by_cases htr : (g.features[i]).geometry.truthy
    · rw [if_pos htr, if_pos htr, decodeGeom_dumps _ hwf]
    · rw [if_neg htr, if_neg htr]
      rfl
  · -- properties
    intro k s hmem hs
    have hkprops : k ∈ (g.features[i]).properties.map Prod.fst :=
      List.mem_map.mpr ⟨(k, .str s), hmem, rfl⟩
    have hknr1 : ¬k = "_feature_id" := by rintro rfl; exact hres1 hkprops
    have hknr2 : ¬k = "geometry_json" := by rintro rfl; exact hres2 hkprops
    have hkrow : k ∈ (featureRow i (g.features[i])).map Prod.fst := by
      rw [hR, List.map_append, List.mem_append]
      exact Or.inr hkprops
    have hkcc : k ∈ collectCols (g.features.enum.map (fun p => featureRow p.1 p.2)) :=
      mem_collectCols _ _ _ hmemrow hkrow
    have hkenc : k ∈ encCols g := by
      rw [encCols, List.mem_append]
      refine Or.inr (List.mem_filter.mpr ⟨hkcc, ?_⟩)
      rw [decide_eq_true_eq]
      exact ⟨hknr1, hknr2⟩
    obtain ⟨rowI3, hrowI3, hcell3⟩ := encode_rowCell g i hi k hkenc hkcc
    have hre : rowI3 = rowI := by
      rw [hrowI] at hrowI3
      exact (Option.some.inj hrowI3).symm
    subst hre
    have hcellval : rowCell rowI3 k .null = .str s := by
      rw [hcell3, rowCell, hR, lookup_append_right _ _ _ (by simp [hknr1, hknr2]),
        lookup_of_mem_nodup _ _ _ hnodup hmem]
    show (k, Value.str s) ∈ (encCols g).filterMap (fun c =>
      if c = "geometry_json" ∨ c = "_feature_id" then none
      else
        let v := rowCell rowI3 c .null
        if v ≠ .null ∧ v ≠ .str "" then some (c, v) else none)
    refine List.mem_filterMap.mpr ⟨k, hkenc, ?_⟩
    rw [if_neg (by
      rintro (rfl | rfl)
      · exact hknr2 rfl
      · exact hknr1 rfl)]
    show (if rowCell rowI3 k .null ≠ .null ∧ rowCell rowI3 k .null ≠ .str "" then
      some (k, rowCell rowI3 k .null) else none) = _
    rw [hcellval,
      if_pos ⟨fun hcontra => Value.noConfusion hcontra, fun hcontra => by
        injection hcontra with h4
        exact hs h4⟩]

/-- Witness input for C1: one feature with id `"x"`, a Point-like geometry
object, and a single string property. -/
def docC1w : GeoDoc :=
  ⟨some "FeatureCollection",
    [⟨some (.str "x"), .obj (.cons "type" (.str "Point") .nil), [("name", .str "hi")]⟩]⟩

theorem claim_C1_witness :
    (0 < docC1w.features.length ∧
      ((docC1w.features[0]).properties.map Prod.fst).Nodup ∧
      "_feature_id" ∉ (docC1w.features[0]).properties.map Prod.fst ∧
      "geometry_json" ∉ (docC1w.features[0]).properties.map Prod.fst ∧
      Value.wf (docC1w.features[0]).geometry = true) ∧
    ((dataframe_to_geojson (geojson_to_dataframe docC1w)).features.length =
      docC1w.features.length ∧
    ∃ f1, (dataframe_to_geojson (geojson_to_dataframe docC1w)).features[0]? = some f1 ∧
      f1.id = some ((docC1w.features[0]).id.getD (.str ("feature_" ++ natToDec 0))) ∧
      f1.geometry = (if (docC1w.features[0]).geometry.truthy then
        (docC1w.features[0]).geometry else .null) ∧
      (∀ k s, (k, .str s) ∈ (docC1w.features[0]).properties → ¬s = "" →
        (k, .str s) ∈ f1.properties)) :=
  ⟨⟨by decide, by decide, by decide, by decide, by decide⟩,
    claim_C1 docC1w 0 (by decide) (by decide) (by decide) (by decide) (by decide)⟩
/-! ## C7: the DataFrame → GeoJSON → DataFrame round trip -/

/-- Keys of a decoded feature's property bag are never the reserved column
names (the decoder filters them out). -/
theorem decodeFeature_props_key (cols : List String) (r : List (String × Value))
    (k : String) (hk : k ∈ (decodeFeature cols r).properties.map Prod.fst) :
    ¬(k = "geometry_json" ∨ k = "_feature_id") := by
  rw [List.mem_map] at hk
  obtain ⟨⟨c, v⟩, hcv, hfst⟩ := hk
  have hcv2 : (c, v) ∈ cols.filterMap (fun c1 =>
      if c1 = "geometry_json" ∨ c1 = "_feature_id" then none
      else
        let w := rowCell r c1 .null
        if w ≠ Value.null ∧ w ≠ Value.str "" then some (c1, w) else none) := hcv
  rw [List.mem_filterMap] at hcv2
  obtain ⟨a, _, hfn⟩ := hcv2
  by_cases hres : a = "geometry_json" ∨ a = "_feature_id"
  · rw [if_pos hres] at hfn
    cases hfn
  · rw [if_neg hres] at hfn
    have hfn2 : (if rowCell r a .null ≠ Value.null ∧ rowCell r a .null ≠ Value.str "" then
        some (a, rowCell r a .null) else none) = some (c, v) := hfn
    by_cases hcond : rowCell r a .null ≠ Value.null ∧ rowCell r a .null ≠ Value.str ""
    · rw [if_pos hcond] at hfn2
      have ha : a = c := congrArg Prod.fst (Option.some.inj hfn2)
      rw [← hfst, ← ha]
      exact hres
    · rw [if_neg hcond] at hfn2
      cases hfn2

def docT7 : Table :=
  ⟨["_feature_id", "geometry_json"],
    [[("_feature_id", .str "a"), ("geometry_json", .str "[1,2]")]]⟩

/-- C7 counterexample: a table whose `geometry_json` cell `"[1,2]"` is valid
JSON but not in `json.dumps` canonical form.  The round trip re-serializes
it as `"[1, 2]"`, so the `geometry_json` column is not reproduced exactly. -/
theorem cex_C7 :
    (geojson_to_dataframe (dataframe_to_geojson docT7)).rows.map
        (fun r => rowCell r "geometry_json" .null) ≠
      docT7.rows.map (fun r => rowCell r "geometry_json" .null) := by
  decide

/-- C7 (as amended): row for row, the round trip reproduces the
`_feature_id` cell exactly, while the `geometry_json` cell becomes the
re-serialization (`json.dumps`) of the parsed geometry when that parse is
truthy, and the empty string otherwise — not necessarily the original
text. -/
theorem claim_C7 (t : Table) (i : Nat) (hi : i < t.rows.length) :
    ∃ row2, (geojson_to_dataframe (dataframe_to_geojson t)).rows[i]? = some row2 ∧
      rowCell row2 "_feature_id" .null = rowCell (t.rows[i]) "_feature_id" .null ∧
      rowCell row2 "geometry_json" .null =
        (if (decodeGeom (rowCell (t.rows[i]) "geometry_json" (.str ""))).truthy then
          .str (dumps (decodeGeom (rowCell (t.rows[i]) "geometry_json" (.str ""))))
        else .str "") := by
  have hlen : (dataframe_to_geojson t).features.length = t.rows.length := by
    show (t.rows.map (decodeFeature t.cols)).length = t.rows.length
    rw [List.length_map]
  have hi2 : i < (dataframe_to_geojson t).features.length := by omega
  have hfeat : (dataframe_to_geojson t).features[i] = decodeFeature t.cols (t.rows[i]) := by
    show (t.rows.map (decodeFeature t.cols))[i] = _
    rw [List.getElem_map]
  have hnotmem1 : "_feature_id" ∉
      ((dataframe_to_geojson t).features[i]).properties.map Prod.fst := by
    rw [hfeat]
    intro hmem
    exact decodeFeature_props_key _ _ _ hmem (Or.inr rfl)
  have hnotmem2 : "geometry_json" ∉
      ((dataframe_to_geojson t).features[i]).properties.map Prod.fst := by
    rw [hfeat]
    intro hmem
    exact decodeFeature_props_key _ _ _ hmem (Or.inl rfl)
  have hmemrow : featureRow i ((dataframe_to_geojson t).features[i]) ∈
      (dataframe_to_geojson t).features.enum.map (fun p => featureRow p.1 p.2) := by
    have h1 : (i, (dataframe_to_geojson t).features[i]) ∈
        (dataframe_to_geojson t).features.enum := by
      have := List.getElem_enum (dataframe_to_geojson t).features i (by simpa using hi2)
      exact this ▸ List.getElem_mem _
    exact List.mem_map.mpr ⟨(i, (dataframe_to_geojson t).features[i]), h1, rfl⟩
  have hfid : rowCell (featureRow i ((dataframe_to_geojson t).features[i]))
      "_feature_id" Value.null = rowCell (t.rows[i]) "_feature_id" Value.null := by
    show rowCell (((dataframe_to_geojson t).features[i]).properties.foldl
      (fun row kv => dictInsert row kv.1 kv.2)
      [("_feature_id",
        match ((dataframe_to_geojson t).features[i]).id with
        | some v => v
        | none => .str ("feature_" ++ natToDec i)),
      ("geometry_json",
        if ((dataframe_to_geojson t).features[i]).geometry.truthy then
          .str (dumps ((dataframe_to_geojson t).features[i]).geometry)
        else .str "")]) "_feature_id" Value.null = _
    rw [rowCell, lookup_foldl_dictInsert_of_not_mem _ _ _ hnotmem1, lookup_cons_self]
    rw [hfeat]
    rfl
  have hgeo : rowCell (featureRow i ((dataframe_to_geojson t).features[i]))
      "geometry_json" Value.null =
      (if (decodeGeom (rowCell (t.rows[i]) "geometry_json" (.str ""))).truthy then
        .str (dumps (decodeGeom (rowCell (t.rows[i]) "geometry_json" (.str ""))))
      else .str "") := by
    show rowCell (((dataframe_to_geojson t).features[i]).properties.foldl
      (fun row kv => dictInsert row kv.1 kv.2)
      [("_feature_id",
        match ((dataframe_to_geojson t).features[i]).id with
        | some v => v
        | none => .str ("feature_" ++ natToDec i)),
      ("geometry_json",
        if ((dataframe_to_geojson t).features[i]).geometry.truthy then
          .str (dumps ((dataframe_to_geojson t).features[i]).geometry)
        else .str "")]) "geometry_json" Value.null = _
    rw [rowCell, lookup_foldl_dictInsert_of_not_mem _ _ _ hnotmem2,
      lookup_cons_ne _ _ _ _ (by decide), lookup_cons_self]
    rw [hfeat]
    rfl
  obtain ⟨row2, hrow2, hcell1⟩ := encode_rowCell (dataframe_to_geojson t) i hi2
    "_feature_id" (by simp [encCols])
    (mem_collectCols _ _ _ hmemrow (featureRow_has_reserved i _).1)
  obtain ⟨row2b, hrow2b, hcell2⟩ := encode_rowCell (dataframe_to_geojson t) i hi2
    "geometry_json" (by simp [encCols])
    (mem_collectCols _ _ _ hmemrow (featureRow_has_reserved i _).2)
  have hre : row2b = row2 := by
    rw [hrow2] at hrow2b
    exact (Option.some.inj hrow2b).symm
  subst hre
  exact ⟨row2b, hrow2, hcell1.trans hfid, hcell2.trans hgeo⟩

theorem claim_C7_witness :
    0 < docT7.rows.length ∧
    (∃ row2, (geojson_to_dataframe (dataframe_to_geojson docT7)).rows[0]? = some row2 ∧
      rowCell row2 "_feature_id" .null = rowCell (docT7.rows[0]) "_feature_id" .null ∧
      rowCell row2 "geometry_json" .null =
        (if (decodeGeom (rowCell (docT7.rows[0]) "geometry_json" (.str ""))).truthy then
          .str (dumps (decodeGeom (rowCell (docT7.rows[0]) "geometry_json" (.str ""))))
        else .str "")) :=
  ⟨by decide, claim_C7 docT7 0 (by decide)⟩
